import Mathlib

/-!
# STL importer mesh builder (`stl_import_mesh.cc`)

A shallow embedding of `blender::io::stl::STLMeshHelper`: the builder state, the two
`add_triangle` overloads and `to_mesh`, followed by theorems about them.

Modelling conventions.

* `float3` points are taken from an arbitrary type `P` with decidable equality: a value
  type whose `==` is exact equality (no tolerance).  Coordinates that are not equal to
  themselves (NaN) are outside the model.  The concrete type `float3` below, with exact
  coordinates, is used for the worked examples.
* The C++ `int` values (vertex indices, counters, mesh totals) are `Int`.  Signed overflow
  is undefined behaviour in C++, so the model covers the runs that stay below `2^31`.
* Mutation of `*this` is explicit state passing: a member function returns the new state.
* `threading::parallel_for` runs its body once for every index of the range, the chunks
  writing disjoint slots; it is modelled by the sequential loop over the range.
-/

set_option linter.unusedSectionVars false

namespace blender.io.stl

/-! ## Containers -/

/-- Modelled from the spec: `VectorSet<T>::index_of_or_add` of `BLI_vector_set.hh`, which is
not part of the sources at hand.  The set is the list of its keys in insertion order.  The
call looks the key up; if present it returns the existing index, otherwise it appends the
key and returns the new index.  The result is the index and the container afterwards. -/
def VectorSet.index_of_or_add {T : Type} [DecidableEq T] (keys : List T) (key : T) :
    Int × List T :=
  if key ∈ keys then ((keys.indexOf key : Nat), keys) else ((keys.length : Nat), keys ++ [key])

/-- Modelled from the spec: `VectorSet<T>::add` of `BLI_vector_set.hh`, which is not part of
the sources at hand.  The key is appended when it is not contained yet; the Boolean tells
whether it was newly added. -/
def VectorSet.add {T : Type} [DecidableEq T] (keys : List T) (key : T) : Bool × List T :=
  if key ∈ keys then (false, keys) else (true, keys ++ [key])

/-- Modelled from the spec: `Vector<T>::append_n_times` of `BLI_vector.hh`, which is not
part of the sources at hand: `n` copies of the value are appended. -/
def Vector.append_n_times {T : Type} (v : List T) (value : T) (n : Nat) : List T :=
  v ++ List.replicate n value

/-! ## Data model -/

/-- Modelled from the spec: the `Triangle` key of `stl_import_mesh.hh` (not part of the
sources at hand): three vertex indices, order-significant, compared field by field. -/
structure Triangle where
  v1 : Int
  v2 : Int
  v3 : Int
deriving DecidableEq, Repr

/-- The data members of `STLMeshHelper`. -/
structure STLMeshHelper (P : Type) where
  verts_ : List P
  tris_ : List Triangle
  loop_normals_ : List P
  degenerate_tris_num_ : Int
  duplicate_tris_num_ : Int
  use_custom_normals_ : Bool

/-- A concrete point type with exact coordinates, used for the worked examples. -/
structure float3 where
  x : Int
  y : Int
  z : Int
deriving DecidableEq, Repr

/-- The part of the host `Mesh` that `to_mesh` writes.  `custom_normals` is the argument
of `BKE_mesh_set_custom_normals` when that call is made, and `flag_autosmooth` tells
whether `ME_AUTOSMOOTH` was or-ed into `mesh->flag`. -/
structure Mesh (P : Type) where
  totvert : Int
  vert_positions : List P
  totpoly : Int
  totloop : Int
  poly_offsets : List Int
  corner_verts : List Int
  custom_normals : Option (List P)
  flag_autosmooth : Bool

/-! ## Operations -/

variable {P : Type} [DecidableEq P]

/-- The constructor `STLMeshHelper::STLMeshHelper(tris_num, use_custom_normals)`.  The
`reserve` calls only pre-allocate capacity and leave the containers empty. -/
def STLMeshHelper.ctor (P : Type) (_tris_num : Int) (use_custom_normals : Bool) :
    STLMeshHelper P :=
  { verts_ := []
    tris_ := []
    loop_normals_ := []
    degenerate_tris_num_ := 0
    duplicate_tris_num_ := 0
    use_custom_normals_ := use_custom_normals }

/-- The overload `bool STLMeshHelper::add_triangle(a, b, c)`: the returned flag and the
builder afterwards. -/
def STLMeshHelper.add_triangle (s : STLMeshHelper P) (a b c : P) : Bool × STLMeshHelper P :=
  let r1 := VectorSet.index_of_or_add s.verts_ a
  let v1_id := r1.1
  let r2 := VectorSet.index_of_or_add r1.2 b
  let v2_id := r2.1
  let r3 := VectorSet.index_of_or_add r2.2 c
  let v3_id := r3.1
  let s1 := { s with verts_ := r3.2 }
  if v1_id = v2_id ∨ v1_id = v3_id ∨ v2_id = v3_id then
    (false, { s1 with degenerate_tris_num_ := s1.degenerate_tris_num_ + 1 })
  else
    let r := VectorSet.add s1.tris_ ⟨v1_id, v2_id, v3_id⟩
    if !r.1 then
      (false, { s1 with tris_ := r.2, duplicate_tris_num_ := s1.duplicate_tris_num_ + 1 })
    else
      (true, { s1 with tris_ := r.2 })

/-- The overload `void STLMeshHelper::add_triangle(a, b, c, custom_normal)`. -/
def STLMeshHelper.add_triangle_custom_normal (s : STLMeshHelper P) (a b c custom_normal : P) :
    STLMeshHelper P :=
  let r := s.add_triangle a b c
  if r.1 then
    { r.2 with loop_normals_ := Vector.append_n_times r.2.loop_normals_ custom_normal 3 }
  else
    r.2

/-- The body of the second `parallel_for` of `to_mesh` for one triangle index `i`. -/
def corner_verts_step (tris : List Triangle) (corner_verts : List Int) (i : Nat) : List Int :=
  match tris[i]? with
  | some t => ((corner_verts.set (3 * i) t.v1).set (3 * i + 1) t.v2).set (3 * i + 2) t.v3
  | none => corner_verts

/-- The body of the first `parallel_for` of `to_mesh` for one index `i`. -/
def poly_offsets_step (poly_offsets : List Int) (i : Nat) : List Int :=
  poly_offsets.set i ((i : Int) * 3)

/-- The two diagnostic lines of `to_mesh`, in the order they are written to `std::cout`. -/
def diagnostics (degenerate_tris_num duplicate_tris_num : Int) : List String :=
  (if degenerate_tris_num > 0 then
      ["STL Importer: " ++ toString degenerate_tris_num ++ " degenerate triangles were removed"]
    else []) ++
  (if duplicate_tris_num > 0 then
      ["STL Importer: " ++ toString duplicate_tris_num ++ " duplicate triangles were removed"]
    else [])

/-- The member `STLMeshHelper::to_mesh`: the lines written to `std::cout` and the mesh.

`poly_offsets_alloc totpoly` stands for the polygon-offset array that
`BKE_mesh_poly_offsets_ensure_alloc` leaves behind for a mesh of `totpoly` polygons (that
function is not part of the sources at hand, so the array it allocates is a parameter).
The corner-vertex layer is created by `CustomData_add_layer_named` with `CD_SET_DEFAULT`,
that is `totloop` zeros.  `BKE_mesh_add` is taken to return a mesh without custom normals
and with `ME_AUTOSMOOTH` clear. -/
def STLMeshHelper.to_mesh (poly_offsets_alloc : Int → List Int) (s : STLMeshHelper P) :
    List String × Mesh P :=
  let out := diagnostics s.degenerate_tris_num_ s.duplicate_tris_num_
  let totvert : Int := (s.verts_.length : Nat)
  let vert_positions := s.verts_
  let totpoly : Int := (s.tris_.length : Nat)
  let totloop : Int := ((s.tris_.length : Nat) : Int) * 3
  let poly_offsets0 := poly_offsets_alloc totpoly
  let poly_offsets := (List.range poly_offsets0.length).foldl poly_offsets_step poly_offsets0
  let corner_verts0 : List Int := List.replicate totloop.toNat 0
  let corner_verts :=
    (List.range s.tris_.length).foldl (corner_verts_step s.tris_) corner_verts0
  if s.use_custom_normals_ ∧ ((s.loop_normals_.length : Nat) : Int) = totloop then
    (out, { totvert := totvert, vert_positions := vert_positions, totpoly := totpoly,
            totloop := totloop, poly_offsets := poly_offsets, corner_verts := corner_verts,
            custom_normals := some s.loop_normals_, flag_autosmooth := true })
  else
    (out, { totvert := totvert, vert_positions := vert_positions, totpoly := totpoly,
            totloop := totloop, poly_offsets := poly_offsets, corner_verts := corner_verts,
            custom_normals := none, flag_autosmooth := false })

/-! ## Call sequences -/

/-- One call of `add_triangle`: either overload with its arguments. -/
inductive Call (P : Type) where
  | plain (a b c : P)
  | with_normal (a b c custom_normal : P)
deriving DecidableEq

/-- The ordered point triple a call submits. -/
def Call.points : Call P → P × P × P
  | .plain a b c => (a, b, c)
  | .with_normal a b c _ => (a, b, c)

/-- The builder after one call. -/
def STLMeshHelper.step (s : STLMeshHelper P) : Call P → STLMeshHelper P
  | .plain a b c => (s.add_triangle a b c).2
  | .with_normal a b c n => s.add_triangle_custom_normal a b c n

/-- The builder after a sequence of calls, made in list order. -/
def STLMeshHelper.run (s : STLMeshHelper P) (calls : List (Call P)) : STLMeshHelper P :=
  calls.foldl STLMeshHelper.step s

/-- A builder state reachable from a fresh builder by `add_triangle` calls. -/
def Reachable (s : STLMeshHelper P) : Prop :=
  ∃ (tris_num : Int) (use_custom_normals : Bool) (calls : List (Call P)),
    s = (STLMeshHelper.ctor P tris_num use_custom_normals).run calls

/-- A triple of points is non-degenerate when its points are pairwise distinct. -/
def nondegenerate (t : P × P × P) : Prop :=
  t.1 ≠ t.2.1 ∧ t.1 ≠ t.2.2 ∧ t.2.1 ≠ t.2.2

instance (t : P × P × P) : Decidable (nondegenerate t) :=
  inferInstanceAs (Decidable (t.1 ≠ t.2.1 ∧ t.1 ≠ t.2.2 ∧ t.2.1 ≠ t.2.2))

/-- The calls of a sequence that are non-degenerate and the first occurrence of their
ordered point triple, in order; `seen` holds the triples submitted before. -/
def accepted_from (seen : List (P × P × P)) : List (Call P) → List (Call P)
  | [] => []
  | call :: rest =>
    if nondegenerate call.points ∧ call.points ∉ seen then
      call :: accepted_from (seen ++ [call.points]) rest
    else
      accepted_from (seen ++ [call.points]) rest

/-- The accepted calls of a sequence fed to a fresh builder. -/
def accepted (calls : List (Call P)) : List (Call P) :=
  accepted_from [] calls

/-- All points submitted by a sequence of calls, in order. -/
def submitted_points (calls : List (Call P)) : List P :=
  calls.flatMap (fun call => [call.points.1, call.points.2.1, call.points.2.2])

/-- The index triple of a point triple with respect to a vertex table. -/
def index_triple (verts : List P) (t : P × P × P) : Triangle :=
  ⟨(verts.indexOf t.1 : Nat), (verts.indexOf t.2.1 : Nat), (verts.indexOf t.2.2 : Nat)⟩

/-- The vertex table after interning `a`, `b`, `c` in that order. -/
def intern3 (verts : List P) (a b c : P) : List P :=
  (VectorSet.index_of_or_add
    (VectorSet.index_of_or_add (VectorSet.index_of_or_add verts a).2 b).2 c).2

/-- The normals a call contributes to the per-corner sequence when it is accepted. -/
def Call.corner_normals : Call P → List P
  | .plain _ _ _ => []
  | .with_normal _ _ _ n => [n, n, n]

/-- Whether the points of a call are in the vertex table. -/
def points_in (verts : List P) (t : P × P × P) : Prop :=
  t.1 ∈ verts ∧ t.2.1 ∈ verts ∧ t.2.2 ∈ verts

/-- The invariant linking a builder state to the sequence of calls that produced it. -/
structure Inv (calls : List (Call P)) (s : STLMeshHelper P) : Prop where
  nodup : s.verts_.Nodup
  mem : ∀ p, p ∈ s.verts_ ↔ p ∈ submitted_points calls
  tris : s.tris_ = (accepted calls).map (fun call => index_triple s.verts_ call.points)
  normals : s.loop_normals_ = (accepted calls).flatMap Call.corner_normals

/-- The call of the normal-bearing overload for a tuple of three points and a normal. -/
def Call.of_normal_tuple (q : P × P × P × P) : Call P :=
  Call.with_normal q.1 q.2.1 q.2.2.1 q.2.2.2

/-- The call of the three-point overload for a triple of points. -/
def Call.of_triple (t : P × P × P) : Call P :=
  Call.plain t.1 t.2.1 t.2.2

/-- A fresh builder fed a sequence of calls. -/
def STLMeshHelper.build (P : Type) [DecidableEq P] (tris_num : Int) (use_custom_normals : Bool)
    (calls : List (Call P)) : STLMeshHelper P :=
  (STLMeshHelper.ctor P tris_num use_custom_normals).run calls

/-- The example point `(0,0,0)`. -/
def p000 : float3 := ⟨0, 0, 0⟩

/-- The example point `(1,0,0)`. -/
def p100 : float3 := ⟨1, 0, 0⟩

/-- The example point `(0,1,0)`. -/
def p010 : float3 := ⟨0, 1, 0⟩

/-- The example normal `(0,0,1)`. -/
def n001 : float3 := ⟨0, 0, 1⟩

/-- An example run: triangle A, a degenerate triangle, A again, then A with two points
swapped and a normal. -/
def example_calls : List (Call float3) :=
  [Call.plain p000 p100 p010, Call.plain p000 p000 p100, Call.plain p000 p100 p010,
   Call.with_normal p100 p000 p010 n001]

/-- An example run of the normal-bearing overload: triangle A, A again with another normal,
then A with two points swapped. -/
def example_normal_calls : List (float3 × float3 × float3 × float3) :=
  [(p000, p100, p010, n001), (p000, p100, p010, p100), (p100, p000, p010, p010)]

/-- The index triple `{v1_id, v2_id, v3_id}` that `add_triangle` computes from its three
points (the three `index_of_or_add` calls), before the degeneracy test. -/
def STLMeshHelper.add_triangle_ids (s : STLMeshHelper P) (a b c : P) : Triangle :=
  let r1 := VectorSet.index_of_or_add s.verts_ a
  let r2 := VectorSet.index_of_or_add r1.2 b
  let r3 := VectorSet.index_of_or_add r2.2 c
  ⟨r1.1, r2.1, r3.1⟩

/-- The line `to_mesh` writes for `n` degenerate triangles. -/
def degenerate_line (n : Int) : String :=
  "STL Importer: " ++ toString n ++ " degenerate triangles were removed"

/-- The line `to_mesh` writes for `n` duplicate triangles. -/
def duplicate_line (n : Int) : String :=
  "STL Importer: " ++ toString n ++ " duplicate triangles were removed"

/-- A polygon-offset allocation with one entry per polygon and a trailing entry, used for
the worked examples. -/
def example_alloc (totpoly : Int) : List Int :=
  List.replicate (totpoly.toNat + 1) 0

/-! ## The vertex interner -/

theorem index_of_or_add_snd (keys : List P) (key : P) :
    (VectorSet.index_of_or_add keys key).2 = if key ∈ keys then keys else keys ++ [key] := by
  unfold VectorSet.index_of_or_add
  split <;> rfl

theorem index_of_or_add_extends (keys : List P) (key : P) :
    keys <+: (VectorSet.index_of_or_add keys key).2 := by
  rw [index_of_or_add_snd]
  split
  · exact List.prefix_refl _
  · exact List.prefix_append _ _

theorem mem_index_of_or_add (keys : List P) (key p : P) :
    p ∈ (VectorSet.index_of_or_add keys key).2 ↔ p ∈ keys ∨ p = key := by
  rw [index_of_or_add_snd]
  split
  · constructor
    · intro h; exact Or.inl h
    · rintro (h | h)
      · exact h
      · subst h; assumption
  · simp

theorem index_of_or_add_self_mem (keys : List P) (key : P) :
    key ∈ (VectorSet.index_of_or_add keys key).2 :=
  (mem_index_of_or_add keys key key).2 (Or.inr rfl)

theorem index_of_or_add_nodup (keys : List P) (key : P) (h : keys.Nodup) :
    (VectorSet.index_of_or_add keys key).2.Nodup := by
  rw [index_of_or_add_snd]
  split
  · exact h
  · rename_i hk
    rw [List.nodup_append]
    refine ⟨h, List.nodup_singleton _, ?_⟩
    intro x hx hx2
    rw [List.mem_singleton] at hx2
    subst hx2
    exact hk hx

theorem index_of_or_add_fst (keys : List P) (key : P) :
    (VectorSet.index_of_or_add keys key).1
      = (((VectorSet.index_of_or_add keys key).2.indexOf key : Nat) : Int) := by
  unfold VectorSet.index_of_or_add
  split
  · rfl
  · rename_i hk
    simp only
    rw [List.indexOf_append_of_not_mem hk]
    simp

theorem indexOf_of_extends {l₁ l₂ : List P} (h : l₁ <+: l₂) {p : P} (hp : p ∈ l₁) :
    l₂.indexOf p = l₁.indexOf p := by
  obtain ⟨t, rfl⟩ := h
  exact List.indexOf_append_of_mem hp

theorem intern3_extends (verts : List P) (a b c : P) : verts <+: intern3 verts a b c :=
  ((index_of_or_add_extends verts a).trans (index_of_or_add_extends _ b)).trans
    (index_of_or_add_extends _ c)

theorem mem_intern3 (verts : List P) (a b c p : P) :
    p ∈ intern3 verts a b c ↔ p ∈ verts ∨ p = a ∨ p = b ∨ p = c := by
  unfold intern3
  rw [mem_index_of_or_add, mem_index_of_or_add, mem_index_of_or_add]
  tauto

theorem intern3_nodup (verts : List P) (a b c : P) (h : verts.Nodup) :
    (intern3 verts a b c).Nodup :=
  index_of_or_add_nodup _ _ (index_of_or_add_nodup _ _ (index_of_or_add_nodup _ _ h))

theorem intern3_of_mem (verts : List P) (a b c : P) (ha : a ∈ verts) (hb : b ∈ verts)
    (hc : c ∈ verts) : intern3 verts a b c = verts := by
  unfold intern3
  rw [index_of_or_add_snd verts a, if_pos ha, index_of_or_add_snd verts b, if_pos hb,
    index_of_or_add_snd verts c, if_pos hc]

theorem index_triple_inj {verts : List P} {t u : P × P × P}
    (ht : t.1 ∈ verts ∧ t.2.1 ∈ verts ∧ t.2.2 ∈ verts)
    (hu : u.1 ∈ verts ∧ u.2.1 ∈ verts ∧ u.2.2 ∈ verts)
    (h : index_triple verts t = index_triple verts u) : t = u := by
  unfold index_triple at h
  simp only [Triangle.mk.injEq, Nat.cast_inj] at h
  obtain ⟨h1, h2, h3⟩ := h
  have e1 := (List.indexOf_inj ht.1 hu.1).1 h1
  have e2 := (List.indexOf_inj ht.2.1 hu.2.1).1 h2
  have e3 := (List.indexOf_inj ht.2.2 hu.2.2).1 h3
  exact Prod.ext e1 (Prod.ext e2 e3)

theorem index_triple_of_extends {l₁ l₂ : List P} (h : l₁ <+: l₂) {t : P × P × P}
    (ht : t.1 ∈ l₁ ∧ t.2.1 ∈ l₁ ∧ t.2.2 ∈ l₁) : index_triple l₂ t = index_triple l₁ t := by
  unfold index_triple
  rw [indexOf_of_extends h ht.1, indexOf_of_extends h ht.2.1, indexOf_of_extends h ht.2.2]

/-- The three-point overload, written with the final vertex table: the call is rejected as
degenerate when two of the points coincide, rejected as a duplicate when the index triple
is already in the triangle set, and accepted otherwise. -/
theorem add_triangle_eq (s : STLMeshHelper P) (a b c : P) :
    s.add_triangle a b c =
      if ¬ nondegenerate (a, b, c) then
        (false, { s with verts_ := intern3 s.verts_ a b c,
                         degenerate_tris_num_ := s.degenerate_tris_num_ + 1 })
      else if index_triple (intern3 s.verts_ a b c) (a, b, c) ∈ s.tris_ then
        (false, { s with verts_ := intern3 s.verts_ a b c,
                         duplicate_tris_num_ := s.duplicate_tris_num_ + 1 })
      else
        (true, { s with verts_ := intern3 s.verts_ a b c,
                        tris_ := s.tris_ ++ [index_triple (intern3 s.verts_ a b c) (a, b, c)] }) := by
  have hp2 := index_of_or_add_extends (VectorSet.index_of_or_add s.verts_ a).2 b
  have hp3 := index_of_or_add_extends
    (VectorSet.index_of_or_add (VectorSet.index_of_or_add s.verts_ a).2 b).2 c
  have ha1 := index_of_or_add_self_mem s.verts_ a
  have hb2 := index_of_or_add_self_mem (VectorSet.index_of_or_add s.verts_ a).2 b
  have hc3 := index_of_or_add_self_mem
    (VectorSet.index_of_or_add (VectorSet.index_of_or_add s.verts_ a).2 b).2 c
  have e1 : (VectorSet.index_of_or_add s.verts_ a).1
      = (((intern3 s.verts_ a b c).indexOf a : Nat) : Int) := by
    rw [index_of_or_add_fst]
    unfold intern3
    rw [indexOf_of_extends (hp2.trans hp3) ha1]
  have e2 : (VectorSet.index_of_or_add (VectorSet.index_of_or_add s.verts_ a).2 b).1
      = (((intern3 s.verts_ a b c).indexOf b : Nat) : Int) := by
    rw [index_of_or_add_fst]
    unfold intern3
    rw [indexOf_of_extends hp3 hb2]
  have e3 : (VectorSet.index_of_or_add
      (VectorSet.index_of_or_add (VectorSet.index_of_or_add s.verts_ a).2 b).2 c).1
      = (((intern3 s.verts_ a b c).indexOf c : Nat) : Int) := by
    rw [index_of_or_add_fst]
    rfl
  have ha : a ∈ intern3 s.verts_ a b c := (mem_intern3 _ _ _ _ _).2 (Or.inr (Or.inl rfl))
  have hb : b ∈ intern3 s.verts_ a b c := (mem_intern3 _ _ _ _ _).2 (Or.inr (Or.inr (Or.inl rfl)))
  have hc : c ∈ intern3 s.verts_ a b c := (mem_intern3 _ _ _ _ _).2 (Or.inr (Or.inr (Or.inr rfl)))
  have hdeg : ((VectorSet.index_of_or_add s.verts_ a).1
        = (VectorSet.index_of_or_add (VectorSet.index_of_or_add s.verts_ a).2 b).1
      ∨ (VectorSet.index_of_or_add s.verts_ a).1 = (VectorSet.index_of_or_add
          (VectorSet.index_of_or_add (VectorSet.index_of_or_add s.verts_ a).2 b).2 c).1
      ∨ (VectorSet.index_of_or_add (VectorSet.index_of_or_add s.verts_ a).2 b).1
          = (VectorSet.index_of_or_add
          (VectorSet.index_of_or_add (VectorSet.index_of_or_add s.verts_ a).2 b).2 c).1)
      ↔ ¬ nondegenerate (a, b, c) := by
    rw [e1, e2, e3]
    simp only [Nat.cast_inj, List.indexOf_inj ha hb, List.indexOf_inj ha hc,
      List.indexOf_inj hb hc, nondegenerate]
    tauto
  unfold STLMeshHelper.add_triangle
  simp only [hdeg]
  by_cases hn : nondegenerate (a, b, c)
  · simp only [hn, not_true_eq_false, if_false]
    rw [e1, e2, e3]
    unfold VectorSet.add
    by_cases hm : index_triple (intern3 s.verts_ a b c) (a, b, c) ∈ s.tris_
    · have hm2 := hm
      unfold index_triple at hm2
      simp only [hm, hm2, if_true]
      rfl
    · have hm2 := hm
      unfold index_triple at hm2
      simp only [hm, hm2, if_false]
      rfl
  · simp only [hn, not_false_eq_true, if_true]
    rfl

/-! ## Accepted calls -/

theorem accepted_from_append (seen : List (P × P × P)) (l : List (Call P)) (call : Call P) :
    accepted_from seen (l ++ [call]) =
      accepted_from seen l ++
        (if nondegenerate call.points ∧ call.points ∉ seen ++ l.map Call.points then [call]
          else []) := by
  induction l generalizing seen with
  | nil => simp [accepted_from]
  | cons x xs ih =>
    rw [List.cons_append]
    simp only [accepted_from, List.map_cons]
    rw [ih]
    simp only [List.append_assoc, List.singleton_append]
    split <;> rfl

theorem accepted_append (l : List (Call P)) (call : Call P) :
    accepted (l ++ [call]) =
      accepted l ++
        (if nondegenerate call.points ∧ call.points ∉ l.map Call.points then [call] else []) := by
  unfold accepted
  rw [accepted_from_append]
  simp

theorem accepted_subset (l : List (Call P)) : ∀ call ∈ accepted l, call ∈ l := by
  induction l using List.reverseRecOn with
  | nil => intro call h; simp [accepted, accepted_from] at h
  | append_singleton xs x ih =>
    intro call h
    rw [accepted_append, List.mem_append] at h
    rcases h with h | h
    · exact List.mem_append_left _ (ih call h)
    · split at h
      · rw [List.mem_singleton] at h
        subst h
        simp
      · simp at h

theorem accepted_nondegenerate (l : List (Call P)) :
    ∀ call ∈ accepted l, nondegenerate call.points := by
  induction l using List.reverseRecOn with
  | nil => intro call h; simp [accepted, accepted_from] at h
  | append_singleton xs x ih =>
    intro call h
    rw [accepted_append, List.mem_append] at h
    rcases h with h | h
    · exact ih call h
    · split at h
      · rename_i hx
        rw [List.mem_singleton] at h
        subst h
        exact hx.1
      · simp at h

/-- A non-degenerate triple has been accepted exactly when it has been submitted. -/
theorem mem_accepted_points (l : List (Call P)) (t : P × P × P) (ht : nondegenerate t) :
    t ∈ (accepted l).map Call.points ↔ t ∈ l.map Call.points := by
  induction l using List.reverseRecOn with
  | nil => simp [accepted, accepted_from]
  | append_singleton xs x ih =>
    rw [accepted_append, List.map_append, List.map_append, List.mem_append, List.mem_append, ih]
    constructor
    · rintro (h | h)
      · exact Or.inl h
      · split at h
        · exact Or.inr h
        · simp at h
    · rintro (h | h)
      · exact Or.inl h
      · by_cases hx : x.points ∈ xs.map Call.points
        · left
          simp only [List.map_cons, List.map_nil, List.mem_singleton] at h
          rw [h]; exact hx
        · right
          simp only [List.map_cons, List.map_nil, List.mem_singleton] at h
          have hn : nondegenerate x.points := h ▸ ht
          rw [if_pos ⟨hn, hx⟩]
          simp [h]

theorem submitted_points_append (l : List (Call P)) (call : Call P) :
    submitted_points (l ++ [call]) =
      submitted_points l ++ [call.points.1, call.points.2.1, call.points.2.2] := by
  simp [submitted_points, List.flatMap_append]

theorem points_in_submitted (l : List (Call P)) (call : Call P) (h : call ∈ l) :
    points_in (submitted_points l) call.points := by
  unfold points_in submitted_points
  simp only [List.mem_flatMap]
  exact ⟨⟨call, h, by simp⟩, ⟨call, h, by simp⟩, ⟨call, h, by simp⟩⟩

/-! ## One call -/

/-- The builder after one call of either overload, by cases on the outcome. -/
theorem step_eq (s : STLMeshHelper P) (call : Call P) :
    s.step call =
      if ¬ nondegenerate call.points then
        { s with verts_ := intern3 s.verts_ call.points.1 call.points.2.1 call.points.2.2,
                 degenerate_tris_num_ := s.degenerate_tris_num_ + 1 }
      else if index_triple (intern3 s.verts_ call.points.1 call.points.2.1 call.points.2.2)
          call.points ∈ s.tris_ then
        { s with verts_ := intern3 s.verts_ call.points.1 call.points.2.1 call.points.2.2,
                 duplicate_tris_num_ := s.duplicate_tris_num_ + 1 }
      else
        { s with verts_ := intern3 s.verts_ call.points.1 call.points.2.1 call.points.2.2,
                 tris_ := s.tris_ ++
                   [index_triple (intern3 s.verts_ call.points.1 call.points.2.1 call.points.2.2)
                     call.points],
                 loop_normals_ := s.loop_normals_ ++ call.corner_normals } := by
  cases call with
  | plain a b c =>
    simp only [STLMeshHelper.step, Call.points, Call.corner_normals, List.append_nil]
    rw [add_triangle_eq]
    split
    · rfl
    · split <;> rfl
  | with_normal a b c n =>
    simp only [STLMeshHelper.step, STLMeshHelper.add_triangle_custom_normal, Call.points,
      Call.corner_normals]
    rw [add_triangle_eq]
    split
    · rfl
    · split
      · rfl
      · simp [Vector.append_n_times, List.replicate]

theorem run_append (s : STLMeshHelper P) (calls : List (Call P)) (call : Call P) :
    s.run (calls ++ [call]) = (s.run calls).step call := by
  simp [STLMeshHelper.run, List.foldl_append]

theorem Inv.points_in_of_accepted {calls : List (Call P)} {s : STLMeshHelper P}
    (h : Inv calls s) (call : Call P) (hc : call ∈ accepted calls) :
    points_in s.verts_ call.points := by
  have := points_in_submitted calls call (accepted_subset calls call hc)
  unfold points_in at this ⊢
  exact ⟨(h.mem _).2 this.1, (h.mem _).2 this.2.1, (h.mem _).2 this.2.2⟩

theorem Inv.tris_of_extends {calls : List (Call P)} {s : STLMeshHelper P} (h : Inv calls s)
    {verts : List P} (hp : s.verts_ <+: verts) :
    s.tris_ = (accepted calls).map (fun call => index_triple verts call.points) := by
  rw [h.tris]
  apply List.map_congr_left
  intro call hc
  exact (index_triple_of_extends hp (h.points_in_of_accepted call hc)).symm

/-- For a non-degenerate triple, its index triple is in the triangle set exactly when the
triple has been submitted before. -/
theorem Inv.mem_tris_iff {calls : List (Call P)} {s : STLMeshHelper P} (h : Inv calls s)
    (t : P × P × P) (ht : nondegenerate t) :
    index_triple (intern3 s.verts_ t.1 t.2.1 t.2.2) t ∈ s.tris_ ↔ t ∈ calls.map Call.points := by
  have hp := intern3_extends s.verts_ t.1 t.2.1 t.2.2
  have htin : points_in (intern3 s.verts_ t.1 t.2.1 t.2.2) t := by
    unfold points_in
    simp only [mem_intern3]
    tauto
  rw [h.tris_of_extends hp, ← mem_accepted_points calls t ht, List.mem_map, List.mem_map]
  constructor
  · rintro ⟨call, hc, he⟩
    refine ⟨call, hc, ?_⟩
    have hin := h.points_in_of_accepted call hc
    have hin2 : points_in (intern3 s.verts_ t.1 t.2.1 t.2.2) call.points :=
      ⟨hp.subset hin.1, hp.subset hin.2.1, hp.subset hin.2.2⟩
    exact index_triple_inj hin2 htin he
  · rintro ⟨call, hc, he⟩
    exact ⟨call, hc, by rw [he]⟩

theorem Inv.step {calls : List (Call P)} {s : STLMeshHelper P} (h : Inv calls s)
    (call : Call P) : Inv (calls ++ [call]) (s.step call) := by
  have hp := intern3_extends s.verts_ call.points.1 call.points.2.1 call.points.2.2
  have hnodup := intern3_nodup s.verts_ call.points.1 call.points.2.1 call.points.2.2 h.nodup
  have hmem : ∀ p, p ∈ intern3 s.verts_ call.points.1 call.points.2.1 call.points.2.2 ↔
      p ∈ submitted_points (calls ++ [call]) := by
    intro p
    rw [mem_intern3, submitted_points_append, List.mem_append, h.mem]
    simp
  rw [step_eq]
  by_cases hn : nondegenerate call.points
  · have hiff := h.mem_tris_iff call.points hn
    by_cases hm : call.points ∈ calls.map Call.points
    · rw [if_neg (not_not.2 hn), if_pos (hiff.2 hm)]
      refine ⟨hnodup, hmem, ?_, ?_⟩
      · simp only [accepted_append]
        rw [if_neg (fun hx => hx.2 hm), List.append_nil]
        exact h.tris_of_extends hp
      · simp only [accepted_append]
        rw [if_neg (fun hx => hx.2 hm), List.append_nil]
        exact h.normals
    · rw [if_neg (not_not.2 hn), if_neg (fun hx => hm (hiff.1 hx))]
      refine ⟨hnodup, hmem, ?_, ?_⟩
      · simp only [accepted_append]
        rw [if_pos ⟨hn, hm⟩, List.map_append, ← h.tris_of_extends hp]
        rfl
      · simp only [accepted_append]
        rw [if_pos ⟨hn, hm⟩, List.flatMap_append, ← h.normals]
        simp
  · rw [if_pos hn]
    refine ⟨hnodup, hmem, ?_, ?_⟩
    · simp only [accepted_append]
      rw [if_neg (fun hx => hn hx.1), List.append_nil]
      exact h.tris_of_extends hp
    · simp only [accepted_append]
      rw [if_neg (fun hx => hn hx.1), List.append_nil]
      exact h.normals

/-- The invariant holds after every sequence of calls on a fresh builder. -/
theorem inv_run (tris_num : Int) (use_custom_normals : Bool) (calls : List (Call P)) :
    Inv calls ((STLMeshHelper.ctor P tris_num use_custom_normals).run calls) := by
  induction calls using List.reverseRecOn with
  | nil =>
    refine ⟨?_, ?_, ?_, ?_⟩ <;>
      simp [STLMeshHelper.run, STLMeshHelper.ctor, submitted_points, accepted, accepted_from]
  | append_singleton xs x ih =>
    rw [run_append]
    exact ih.step x

/-! ## Materialisation -/

theorem corner_verts_fold (tris : List Triangle) (cv0 : List Int)
    (h0 : cv0.length = 3 * tris.length) (m : Nat) (hm : m ≤ tris.length) :
    ((List.range m).foldl (corner_verts_step tris) cv0).length = 3 * tris.length ∧
    ∀ i t, i < m → tris[i]? = some t →
      ((List.range m).foldl (corner_verts_step tris) cv0)[3 * i]? = some t.v1 ∧
      ((List.range m).foldl (corner_verts_step tris) cv0)[3 * i + 1]? = some t.v2 ∧
      ((List.range m).foldl (corner_verts_step tris) cv0)[3 * i + 2]? = some t.v3 := by
  induction m with
  | zero =>
    refine ⟨by simpa using h0, ?_⟩
    intro i t hi
    omega
  | succ m ih =>
    obtain ⟨hlen, hget⟩ := ih (by omega)
    rw [List.range_succ, List.foldl_append]
    simp only [List.foldl_cons, List.foldl_nil]
    have hmlt : m < tris.length := by omega
    have htm : tris[m]? = some tris[m] := List.getElem?_eq_getElem hmlt
    have hstep : corner_verts_step tris ((List.range m).foldl (corner_verts_step tris) cv0) m
        = ((((List.range m).foldl (corner_verts_step tris) cv0).set (3 * m) tris[m].v1).set
            (3 * m + 1) tris[m].v2).set (3 * m + 2) tris[m].v3 := by
      unfold corner_verts_step
      rw [htm]
    rw [hstep]
    refine ⟨by simp [hlen], ?_⟩
    intro i t hi hti
    by_cases him : i = m
    · subst him
      rw [htm] at hti
      cases hti
      refine ⟨?_, ?_, ?_⟩
      · rw [List.getElem?_set_ne (by omega), List.getElem?_set_ne (by omega),
          List.getElem?_set_self (by omega)]
      · rw [List.getElem?_set_ne (by omega), List.getElem?_set_self (by simp; omega)]
      · rw [List.getElem?_set_self (by simp; omega)]
    · have hlt : i < m := by omega
      obtain ⟨g1, g2, g3⟩ := hget i t hlt hti
      refine ⟨?_, ?_, ?_⟩
      · rw [List.getElem?_set_ne (by omega), List.getElem?_set_ne (by omega),
          List.getElem?_set_ne (by omega), g1]
      · rw [List.getElem?_set_ne (by omega), List.getElem?_set_ne (by omega),
          List.getElem?_set_ne (by omega), g2]
      · rw [List.getElem?_set_ne (by omega), List.getElem?_set_ne (by omega),
          List.getElem?_set_ne (by omega), g3]

theorem to_mesh_vert_positions (alloc : Int → List Int) (s : STLMeshHelper P) :
    (s.to_mesh alloc).2.vert_positions = s.verts_ := by
  unfold STLMeshHelper.to_mesh
  simp only
  split <;> rfl

theorem to_mesh_totvert (alloc : Int → List Int) (s : STLMeshHelper P) :
    (s.to_mesh alloc).2.totvert = (s.verts_.length : Nat) := by
  unfold STLMeshHelper.to_mesh
  simp only
  split <;> rfl

theorem to_mesh_totpoly (alloc : Int → List Int) (s : STLMeshHelper P) :
    (s.to_mesh alloc).2.totpoly = (s.tris_.length : Nat) := by
  unfold STLMeshHelper.to_mesh
  simp only
  split <;> rfl

theorem to_mesh_totloop (alloc : Int → List Int) (s : STLMeshHelper P) :
    (s.to_mesh alloc).2.totloop = ((s.tris_.length : Nat) : Int) * 3 := by
  unfold STLMeshHelper.to_mesh
  simp only
  split <;> rfl

theorem to_mesh_corner_verts (alloc : Int → List Int) (s : STLMeshHelper P) :
    (s.to_mesh alloc).2.corner_verts =
      (List.range s.tris_.length).foldl (corner_verts_step s.tris_)
        (List.replicate (3 * s.tris_.length) 0) := by
  have e : (((s.tris_.length : Nat) : Int) * 3).toNat = 3 * s.tris_.length := by omega
  unfold STLMeshHelper.to_mesh
  simp only [e]
  split <;> rfl

/-- Every corner slot of the mesh holds the corresponding index of its triangle. -/
theorem to_mesh_corner_verts_get (alloc : Int → List Int) (s : STLMeshHelper P) (i : Nat)
    (t : Triangle) (h : s.tris_[i]? = some t) :
    (s.to_mesh alloc).2.corner_verts[3 * i]? = some t.v1 ∧
    (s.to_mesh alloc).2.corner_verts[3 * i + 1]? = some t.v2 ∧
    (s.to_mesh alloc).2.corner_verts[3 * i + 2]? = some t.v3 := by
  rw [to_mesh_corner_verts]
  have hi : i < s.tris_.length := (List.getElem?_eq_some.1 h).1
  exact (corner_verts_fold s.tris_ _ (by simp) s.tris_.length (le_refl _)).2 i t hi h

/-! ## Normals -/

theorem flatMap_corner_normals_with_normal (acc : List (Call P))
    (hall : ∀ call ∈ acc, ∃ q, call = Call.of_normal_tuple q) :
    (acc.flatMap Call.corner_normals).length = 3 * acc.length ∧
    ∀ (k : Nat) (a b c n : P), acc[k]? = some (Call.with_normal a b c n) →
      (acc.flatMap Call.corner_normals)[3 * k]? = some n ∧
      (acc.flatMap Call.corner_normals)[3 * k + 1]? = some n ∧
      (acc.flatMap Call.corner_normals)[3 * k + 2]? = some n := by
  induction acc with
  | nil => simp
  | cons x xs ih =>
    obtain ⟨hlen, hget⟩ := ih (fun call hc => hall call (List.mem_cons_of_mem _ hc))
    obtain ⟨q, hq⟩ := hall x (List.mem_cons_self _ _)
    subst hq
    simp only [List.flatMap_cons, Call.of_normal_tuple, Call.corner_normals, List.length_append,
      List.length_cons, List.length_nil, hlen]
    refine ⟨by omega, ?_⟩
    intro k a b c n hk
    cases k with
    | zero =>
      simp only [List.getElem?_cons_zero, Option.some.injEq, Call.with_normal.injEq] at hk
      obtain ⟨-, -, -, rfl⟩ := hk
      simp
    | succ k =>
      rw [List.getElem?_cons_succ] at hk
      obtain ⟨g1, g2, g3⟩ := hget k a b c n hk
      have e1 : 3 * (k + 1) = 3 * k + 3 := by omega
      have e2 : 3 * k + 3 + 1 = 3 * k + 1 + 3 := by omega
      have e3 : 3 * k + 3 + 2 = 3 * k + 2 + 3 := by omega
      rw [e1, e2, e3]
      simp only [List.cons_append, List.nil_append, List.getElem?_cons_succ]
      exact ⟨g1, g2, g3⟩

theorem flatMap_corner_normals_plain (acc : List (Call P))
    (hall : ∀ call ∈ acc, ∃ t, call = Call.of_triple t) :
    acc.flatMap Call.corner_normals = [] := by
  rw [List.flatMap_eq_nil_iff]
  intro call hc
  obtain ⟨t, rfl⟩ := hall call hc
  rfl

theorem step_use_custom_normals (s : STLMeshHelper P) (call : Call P) :
    (s.step call).use_custom_normals_ = s.use_custom_normals_ := by
  rw [step_eq]
  split
  · rfl
  · split <;> rfl

theorem run_use_custom_normals (s : STLMeshHelper P) (calls : List (Call P)) :
    (s.run calls).use_custom_normals_ = s.use_custom_normals_ := by
  induction calls using List.reverseRecOn with
  | nil => rfl
  | append_singleton xs x ih => rw [run_append, step_use_custom_normals, ih]

theorem to_mesh_of_disabled (alloc : Int → List Int) (s : STLMeshHelper P)
    (h : s.use_custom_normals_ = false) :
    (s.to_mesh alloc).2.custom_normals = none ∧ (s.to_mesh alloc).2.flag_autosmooth = false := by
  unfold STLMeshHelper.to_mesh
  simp only
  rw [if_neg (by rw [h]; simp)]
  exact ⟨rfl, rfl⟩

/-! ## Claims -/

/-- C1: end-to-end indexing round trip.  For every sequence of calls fed to a fresh
builder, `to_mesh` produces as many polygons as there are accepted calls (non-degenerate,
first occurrence of their ordered point triple), and for the `i`-th accepted triple the
corner slots `3*i`, `3*i+1`, `3*i+2` hold non-negative indices at which the vertex array
holds the first, second and third point of that triple. -/
theorem C1_round_trip (tris_num : Int) (use_custom_normals : Bool) (alloc : Int → List Int)
    (calls : List (Call P)) :
    ((STLMeshHelper.build P tris_num use_custom_normals calls).to_mesh alloc).2.totpoly
      = (((accepted calls).map Call.points).length : Nat) ∧
    ∀ (i : Nat) (t : P × P × P), ((accepted calls).map Call.points)[i]? = some t →
      ∃ v1 v2 v3 : Nat,
        ((STLMeshHelper.build P tris_num use_custom_normals calls).to_mesh alloc).2.corner_verts[3 * i]?
          = some (v1 : Int) ∧
        ((STLMeshHelper.build P tris_num use_custom_normals calls).to_mesh alloc).2.corner_verts[3 * i + 1]?
          = some (v2 : Int) ∧
        ((STLMeshHelper.build P tris_num use_custom_normals calls).to_mesh alloc).2.corner_verts[3 * i + 2]?
          = some (v3 : Int) ∧
        ((STLMeshHelper.build P tris_num use_custom_normals calls).to_mesh alloc).2.vert_positions[v1]?
          = some t.1 ∧
        ((STLMeshHelper.build P tris_num use_custom_normals calls).to_mesh alloc).2.vert_positions[v2]?
          = some t.2.1 ∧
        ((STLMeshHelper.build P tris_num use_custom_normals calls).to_mesh alloc).2.vert_positions[v3]?
          = some t.2.2 := by
  have hinv := inv_run tris_num use_custom_normals calls
  unfold STLMeshHelper.build
  refine ⟨?_, ?_⟩
  · rw [to_mesh_totpoly, hinv.tris]
    simp
  · intro i t hit
    rw [List.getElem?_map] at hit
    cases hc : (accepted calls)[i]? with
    | none => rw [hc] at hit; simp at hit
    | some call =>
      rw [hc] at hit
      simp only [Option.map_some', Option.some.injEq] at hit
      subst hit
      have hin := hinv.points_in_of_accepted call (List.getElem?_mem hc)
      have htri : ((STLMeshHelper.ctor P tris_num use_custom_normals).run calls).tris_[i]?
          = some (index_triple ((STLMeshHelper.ctor P tris_num use_custom_normals).run calls).verts_
              call.points) := by
        rw [hinv.tris, List.getElem?_map, hc]
        rfl
      obtain ⟨g1, g2, g3⟩ := to_mesh_corner_verts_get alloc _ i _ htri
      refine ⟨_, _, _, g1, g2, g3, ?_, ?_, ?_⟩
      · rw [to_mesh_vert_positions]; exact List.getElem?_indexOf hin.1
      · rw [to_mesh_vert_positions]; exact List.getElem?_indexOf hin.2.1
      · rw [to_mesh_vert_positions]; exact List.getElem?_indexOf hin.2.2

/-- Witness for C1: in the example run the second accepted triangle is
`(1,0,0)-(0,0,0)-(0,1,0)`, and its corner slots 3, 4, 5 lead back to these points. -/
theorem C1_round_trip_witness :
    ((accepted example_calls).map Call.points)[1]? = some (p100, p000, p010) ∧
    ∃ v1 v2 v3 : Nat,
      ((STLMeshHelper.build float3 0 false example_calls).to_mesh (fun _ => [])).2.corner_verts[3 * 1]?
        = some (v1 : Int) ∧
      ((STLMeshHelper.build float3 0 false example_calls).to_mesh (fun _ => [])).2.corner_verts[3 * 1 + 1]?
        = some (v2 : Int) ∧
      ((STLMeshHelper.build float3 0 false example_calls).to_mesh (fun _ => [])).2.corner_verts[3 * 1 + 2]?
        = some (v3 : Int) ∧
      ((STLMeshHelper.build float3 0 false example_calls).to_mesh (fun _ => [])).2.vert_positions[v1]?
        = some p100 ∧
      ((STLMeshHelper.build float3 0 false example_calls).to_mesh (fun _ => [])).2.vert_positions[v2]?
        = some p000 ∧
      ((STLMeshHelper.build float3 0 false example_calls).to_mesh (fun _ => [])).2.vert_positions[v3]?
        = some p010 :=
  ⟨by decide, (C1_round_trip 0 false (fun _ => []) example_calls).2 1 (p100, p000, p010) (by decide)⟩

/-- C2: acceptance characterised on points.  In every state reached from a fresh builder,
the three-point `add_triangle a b c` returns true exactly when `a`, `b`, `c` are pairwise
distinct and no earlier call submitted the ordered triple `(a, b, c)`; when it returns true
the three points are in the vertex table and the triple of their indices is appended as the
last element of the triangle list. -/
theorem C2_acceptance (tris_num : Int) (use_custom_normals : Bool) (calls : List (Call P))
    (a b c : P) :
    (((STLMeshHelper.build P tris_num use_custom_normals calls).add_triangle a b c).1 = true ↔
      (a ≠ b ∧ a ≠ c ∧ b ≠ c) ∧ (a, b, c) ∉ calls.map Call.points) ∧
    (((STLMeshHelper.build P tris_num use_custom_normals calls).add_triangle a b c).1 = true →
      points_in ((STLMeshHelper.build P tris_num use_custom_normals calls).add_triangle a b c).2.verts_
        (a, b, c) ∧
      ((STLMeshHelper.build P tris_num use_custom_normals calls).add_triangle a b c).2.tris_ =
        (STLMeshHelper.build P tris_num use_custom_normals calls).tris_ ++
          [index_triple
            ((STLMeshHelper.build P tris_num use_custom_normals calls).add_triangle a b c).2.verts_
            (a, b, c)]) := by
  have hinv := inv_run tris_num use_custom_normals calls
  unfold STLMeshHelper.build
  rw [add_triangle_eq]
  have hin : points_in (intern3 ((STLMeshHelper.ctor P tris_num use_custom_normals).run calls).verts_
      a b c) (a, b, c) := by
    unfold points_in
    simp only [mem_intern3]
    tauto
  by_cases hn : nondegenerate (a, b, c)
  · have hiff := hinv.mem_tris_iff (a, b, c) hn
    have hn2 : a ≠ b ∧ a ≠ c ∧ b ≠ c := hn
    by_cases hm : (a, b, c) ∈ calls.map Call.points
    · rw [if_neg (not_not.2 hn), if_pos (hiff.2 hm)]
      simp [hm]
    · rw [if_neg (not_not.2 hn), if_neg (fun hx => hm (hiff.1 hx))]
      exact ⟨⟨fun _ => ⟨hn2, hm⟩, fun _ => rfl⟩, fun _ => ⟨hin, rfl⟩⟩
  · have hn2 : ¬ (a ≠ b ∧ a ≠ c ∧ b ≠ c) := hn
    rw [if_pos hn]
    simp [hn2]

/-- Witness for C2: after triangle A was submitted, the same points with the first two
swapped are accepted and their index triple becomes the last triangle. -/
theorem C2_acceptance_witness :
    points_in
      ((STLMeshHelper.build float3 0 false [Call.plain p000 p100 p010]).add_triangle
        p100 p000 p010).2.verts_ (p100, p000, p010) ∧
    ((STLMeshHelper.build float3 0 false [Call.plain p000 p100 p010]).add_triangle
        p100 p000 p010).2.tris_ =
      (STLMeshHelper.build float3 0 false [Call.plain p000 p100 p010]).tris_ ++
        [index_triple
          ((STLMeshHelper.build float3 0 false [Call.plain p000 p100 p010]).add_triangle
            p100 p000 p010).2.verts_ (p100, p000, p010)] :=
  (C2_acceptance 0 false [Call.plain p000 p100 p010] p100 p000 p010).2 (by decide)

/-- C3: degenerate rejection.  In every builder state, when at least two of the points
`a`, `b`, `c` are equal, `add_triangle a b c` returns false, increases the degenerate
counter by exactly 1, leaves the duplicate counter, the triangle list and the normal
sequence unchanged, and changes the vertex table exactly as interning `a`, `b`, `c` in that
order does; the overload with a normal ends in the same state. -/
theorem C3_degenerate_rejection (s : STLMeshHelper P) (a b c : P)
    (h : a = b ∨ a = c ∨ b = c) :
    (s.add_triangle a b c).1 = false ∧
    (s.add_triangle a b c).2.degenerate_tris_num_ = s.degenerate_tris_num_ + 1 ∧
    (s.add_triangle a b c).2.duplicate_tris_num_ = s.duplicate_tris_num_ ∧
    (s.add_triangle a b c).2.tris_ = s.tris_ ∧
    (s.add_triangle a b c).2.loop_normals_ = s.loop_normals_ ∧
    (s.add_triangle a b c).2.verts_ =
      (VectorSet.index_of_or_add
        (VectorSet.index_of_or_add (VectorSet.index_of_or_add s.verts_ a).2 b).2 c).2 ∧
    ∀ n : P, s.add_triangle_custom_normal a b c n = (s.add_triangle a b c).2 := by
  have hn : ¬ nondegenerate (a, b, c) := by
    unfold nondegenerate
    simp only
    tauto
  unfold STLMeshHelper.add_triangle_custom_normal
  rw [add_triangle_eq, if_pos hn]
  simp [intern3]

/-- Witness for C3: on a fresh builder `(0,0,0)-(0,0,0)-(1,0,0)` is rejected and leaves
2 vertices, 0 triangles and a degenerate count of 1. -/
theorem C3_degenerate_rejection_witness :
    ((STLMeshHelper.ctor float3 0 false).add_triangle p000 p000 p100).1 = false ∧
    ((STLMeshHelper.ctor float3 0 false).add_triangle p000 p000 p100).2.degenerate_tris_num_
      = (STLMeshHelper.ctor float3 0 false).degenerate_tris_num_ + 1 ∧
    ((STLMeshHelper.ctor float3 0 false).add_triangle p000 p000 p100).2.verts_.length = 2 ∧
    ((STLMeshHelper.ctor float3 0 false).add_triangle p000 p000 p100).2.tris_.length = 0 ∧
    ((STLMeshHelper.ctor float3 0 false).add_triangle p000 p000 p100).2.degenerate_tris_num_ = 1 :=
  ⟨(C3_degenerate_rejection (STLMeshHelper.ctor float3 0 false) p000 p000 p100
      (Or.inl rfl)).1,
   (C3_degenerate_rejection (STLMeshHelper.ctor float3 0 false) p000 p000 p100
      (Or.inl rfl)).2.1,
   by decide, by decide, by decide⟩

/-- C4 as stated fails: a degenerate triangle submitted a second time is rejected, but it
is the degenerate counter that grows, the duplicate counter stays as it was. -/
theorem C4_counterexample :
    ¬ (((STLMeshHelper.build float3 0 false [Call.plain p000 p000 p100]).add_triangle
          p000 p000 p100).1 = false ∧
       ((STLMeshHelper.build float3 0 false [Call.plain p000 p000 p100]).add_triangle
          p000 p000 p100).2.duplicate_tris_num_
        = (STLMeshHelper.build float3 0 false [Call.plain p000 p000 p100]).duplicate_tris_num_ + 1 ∧
       ((STLMeshHelper.build float3 0 false [Call.plain p000 p000 p100]).add_triangle
          p000 p000 p100).2.tris_.length
        = (STLMeshHelper.build float3 0 false [Call.plain p000 p000 p100]).tris_.length) := by
  decide

/-- C4, amended: in every state reached from a fresh builder by calls one of which
submitted the ordered triple `(a, b, c)`, a further `add_triangle a b c` returns false and
leaves the triangle list, hence the triangle count, as it was; when `a`, `b`, `c` are
pairwise distinct it increases the duplicate counter by exactly 1 and leaves the degenerate
counter, and otherwise it increases the degenerate counter by exactly 1 and leaves the
duplicate counter. -/
theorem C4_repeated_triangle (tris_num : Int) (use_custom_normals : Bool)
    (calls : List (Call P)) (a b c : P) (h : (a, b, c) ∈ calls.map Call.points) :
    ((STLMeshHelper.build P tris_num use_custom_normals calls).add_triangle a b c).1 = false ∧
    ((STLMeshHelper.build P tris_num use_custom_normals calls).add_triangle a b c).2.tris_
      = (STLMeshHelper.build P tris_num use_custom_normals calls).tris_ ∧
    ((STLMeshHelper.build P tris_num use_custom_normals calls).add_triangle a b c).2.tris_.length
      = (STLMeshHelper.build P tris_num use_custom_normals calls).tris_.length ∧
    ((a ≠ b ∧ a ≠ c ∧ b ≠ c) →
      ((STLMeshHelper.build P tris_num use_custom_normals calls).add_triangle a b c).2.duplicate_tris_num_
        = (STLMeshHelper.build P tris_num use_custom_normals calls).duplicate_tris_num_ + 1 ∧
      ((STLMeshHelper.build P tris_num use_custom_normals calls).add_triangle a b c).2.degenerate_tris_num_
        = (STLMeshHelper.build P tris_num use_custom_normals calls).degenerate_tris_num_) ∧
    (¬ (a ≠ b ∧ a ≠ c ∧ b ≠ c) →
      ((STLMeshHelper.build P tris_num use_custom_normals calls).add_triangle a b c).2.degenerate_tris_num_
        = (STLMeshHelper.build P tris_num use_custom_normals calls).degenerate_tris_num_ + 1 ∧
      ((STLMeshHelper.build P tris_num use_custom_normals calls).add_triangle a b c).2.duplicate_tris_num_
        = (STLMeshHelper.build P tris_num use_custom_normals calls).duplicate_tris_num_) := by
  have hinv := inv_run tris_num use_custom_normals calls
  unfold STLMeshHelper.build
  rw [add_triangle_eq]
  by_cases hn : nondegenerate (a, b, c)
  · have hn2 : a ≠ b ∧ a ≠ c ∧ b ≠ c := hn
    rw [if_neg (not_not.2 hn), if_pos ((hinv.mem_tris_iff (a, b, c) hn).2 h)]
    simp [hn2]
  · have hn2 : ¬ (a ≠ b ∧ a ≠ c ∧ b ≠ c) := hn
    rw [if_pos hn]
    simp [hn2]

/-- Witness for C4: triangle A submitted twice; the second call is rejected, the triangle
count stays 1 and the duplicate count becomes 1. -/
theorem C4_repeated_triangle_witness :
    ((STLMeshHelper.build float3 0 false [Call.plain p000 p100 p010]).add_triangle
        p000 p100 p010).1 = false ∧
    ((STLMeshHelper.build float3 0 false [Call.plain p000 p100 p010]).add_triangle
        p000 p100 p010).2.tris_.length = 1 ∧
    ((STLMeshHelper.build float3 0 false [Call.plain p000 p100 p010]).add_triangle
        p000 p100 p010).2.duplicate_tris_num_ = 1 :=
  ⟨(C4_repeated_triangle 0 false [Call.plain p000 p100 p010] p000 p100 p010 (by decide)).1,
   by decide, by decide⟩

/-- C5: the vertex table is a duplicate-free enumeration of every submitted point.  After
any sequence of calls on a fresh builder no two entries of the vertex table are equal, its
entries are exactly the points passed in any call (accepted or rejected), and its size is
the number of distinct points submitted. -/
theorem C5_vertex_table (tris_num : Int) (use_custom_normals : Bool) (calls : List (Call P)) :
    (STLMeshHelper.build P tris_num use_custom_normals calls).verts_.Nodup ∧
    (∀ p, p ∈ (STLMeshHelper.build P tris_num use_custom_normals calls).verts_ ↔
      p ∈ submitted_points calls) ∧
    (STLMeshHelper.build P tris_num use_custom_normals calls).verts_.length
      = (submitted_points calls).toFinset.card := by
  have hinv := inv_run tris_num use_custom_normals calls
  unfold STLMeshHelper.build
  refine ⟨hinv.nodup, hinv.mem, ?_⟩
  rw [← List.toFinset_card_of_nodup hinv.nodup]
  congr 1
  ext p
  simp only [List.mem_toFinset]
  exact hinv.mem p

/-- C6: index stability.  For every builder state and every call of either overload, the
vertex table before the call is a prefix of the one after it and the triangle list before
the call is a prefix of the one after it; so a point of the table keeps its index and a
triangle of the list keeps its position. -/
theorem C6_index_stability (s : STLMeshHelper P) (call : Call P) :
    s.verts_ <+: (s.step call).verts_ ∧
    s.tris_ <+: (s.step call).tris_ ∧
    (∀ p, p ∈ s.verts_ → (s.step call).verts_.indexOf p = s.verts_.indexOf p) ∧
    (∀ (i : Nat) (t : Triangle), s.tris_[i]? = some t → (s.step call).tris_[i]? = some t) := by
  have hv : s.verts_ <+: (s.step call).verts_ := by
    rw [step_eq]
    split
    · exact intern3_extends _ _ _ _
    · split <;> exact intern3_extends _ _ _ _
  have ht : s.tris_ <+: (s.step call).tris_ := by
    rw [step_eq]
    split
    · exact List.prefix_refl _
    · split
      · exact List.prefix_refl _
      · exact List.prefix_append _ _
  refine ⟨hv, ht, fun p hp => indexOf_of_extends hv hp, ?_⟩
  intro i t hi
  obtain ⟨r, hr⟩ := ht
  rw [← hr, List.getElem?_append_left (List.getElem?_eq_some.1 hi).1]
  exact hi

/-- Witness for C6: after triangle A, accepting a reordering of it keeps `(1,0,0)` at index
1 and the first triangle at position 0. -/
theorem C6_index_stability_witness :
    ((STLMeshHelper.build float3 0 false [Call.plain p000 p100 p010]).step
        (Call.plain p100 p000 p010)).verts_.indexOf p100
      = (STLMeshHelper.build float3 0 false [Call.plain p000 p100 p010]).verts_.indexOf p100 ∧
    ((STLMeshHelper.build float3 0 false [Call.plain p000 p100 p010]).step
        (Call.plain p100 p000 p010)).tris_[0]? = some ⟨0, 1, 2⟩ :=
  ⟨(C6_index_stability (STLMeshHelper.build float3 0 false [Call.plain p000 p100 p010])
      (Call.plain p100 p000 p010)).2.2.1 p100 (by decide),
   (C6_index_stability (STLMeshHelper.build float3 0 false [Call.plain p000 p100 p010])
      (Call.plain p100 p000 p010)).2.2.2 0 ⟨0, 1, 2⟩ (by decide)⟩

/-- C7: order-sensitive deduplication.  For pairwise distinct `a`, `b`, `c`, in a state
reached by calls that submitted `(a, b, c)` but not the reordering `(a2, b2, c2)` of the
same three points, `add_triangle a2 b2 c2` returns true, adds one triangle, adds no vertex
and leaves both counters unchanged. -/
theorem C7_order_sensitive (tris_num : Int) (use_custom_normals : Bool)
    (calls : List (Call P)) (a b c a2 b2 c2 : P) (hd : a ≠ b ∧ a ≠ c ∧ b ≠ c)
    (hsub : (a, b, c) ∈ calls.map Call.points) (hperm : List.Perm [a2, b2, c2] [a, b, c])
    (hnot : (a2, b2, c2) ∉ calls.map Call.points) :
    ((STLMeshHelper.build P tris_num use_custom_normals calls).add_triangle a2 b2 c2).1 = true ∧
    ((STLMeshHelper.build P tris_num use_custom_normals calls).add_triangle a2 b2 c2).2.tris_.length
      = (STLMeshHelper.build P tris_num use_custom_normals calls).tris_.length + 1 ∧
    ((STLMeshHelper.build P tris_num use_custom_normals calls).add_triangle a2 b2 c2).2.verts_
      = (STLMeshHelper.build P tris_num use_custom_normals calls).verts_ ∧
    ((STLMeshHelper.build P tris_num use_custom_normals calls).add_triangle a2 b2 c2).2.degenerate_tris_num_
      = (STLMeshHelper.build P tris_num use_custom_normals calls).degenerate_tris_num_ ∧
    ((STLMeshHelper.build P tris_num use_custom_normals calls).add_triangle a2 b2 c2).2.duplicate_tris_num_
      = (STLMeshHelper.build P tris_num use_custom_normals calls).duplicate_tris_num_ := by
  have hinv := inv_run tris_num use_custom_normals calls
  unfold STLMeshHelper.build
  have hnd : [a, b, c].Nodup := by
    simp [hd.1, hd.2.1, hd.2.2]
  have hnd2 : [a2, b2, c2].Nodup := hperm.nodup_iff.2 hnd
  have hn : nondegenerate (a2, b2, c2) := by
    unfold nondegenerate
    simp only [List.nodup_cons, List.mem_cons, List.mem_singleton, not_or] at hnd2
    simp only
    tauto
  obtain ⟨call, hcall, hpts⟩ := List.mem_map.1 hsub
  have hin := points_in_submitted calls call hcall
  rw [hpts] at hin
  have hmem : ∀ p, p ∈ [a2, b2, c2] →
      p ∈ ((STLMeshHelper.ctor P tris_num use_custom_normals).run calls).verts_ := by
    intro p hp
    have hp2 := hperm.subset hp
    simp only [List.mem_cons, List.mem_singleton, List.not_mem_nil, or_false] at hp2
    rcases hp2 with rfl | rfl | rfl
    · exact (hinv.mem _).2 hin.1
    · exact (hinv.mem _).2 hin.2.1
    · exact (hinv.mem _).2 hin.2.2
  have hsame := intern3_of_mem _ a2 b2 c2 (hmem a2 (by simp)) (hmem b2 (by simp))
    (hmem c2 (by simp))
  rw [add_triangle_eq, if_neg (not_not.2 hn),
    if_neg (fun hx => hnot ((hinv.mem_tris_iff (a2, b2, c2) hn).1 hx))]
  simp [hsame]

/-- Witness for C7: on a fresh builder, A = `(0,0,0)-(1,0,0)-(0,1,0)` then
B = `(1,0,0)-(0,0,0)-(0,1,0)` gives 3 vertices, 2 triangles and both counters 0. -/
theorem C7_order_sensitive_witness :
    ((STLMeshHelper.build float3 0 false [Call.plain p000 p100 p010]).add_triangle
        p100 p000 p010).1 = true ∧
    ((STLMeshHelper.build float3 0 false [Call.plain p000 p100 p010]).add_triangle
        p100 p000 p010).2.verts_.length = 3 ∧
    ((STLMeshHelper.build float3 0 false [Call.plain p000 p100 p010]).add_triangle
        p100 p000 p010).2.tris_.length = 2 ∧
    ((STLMeshHelper.build float3 0 false [Call.plain p000 p100 p010]).add_triangle
        p100 p000 p010).2.degenerate_tris_num_ = 0 ∧
    ((STLMeshHelper.build float3 0 false [Call.plain p000 p100 p010]).add_triangle
        p100 p000 p010).2.duplicate_tris_num_ = 0 :=
  ⟨(C7_order_sensitive 0 false [Call.plain p000 p100 p010] p000 p100 p010 p100 p000 p010
      (by decide) (by decide) (List.Perm.swap _ _ _) (by decide)).1,
   by decide, by decide, by decide, by decide⟩

/-- C8: custom-normal alignment.  For a builder constructed with custom normals enabled on
which every call uses the normal-bearing overload, the normal sequence has length exactly
3 times the number of triangles, the triangles are the accepted calls in order, and for the
`k`-th accepted call the entries `3k`, `3k+1`, `3k+2` all equal the normal supplied in that
call; the sequence consists of the normals of the accepted calls only. -/
theorem C8_normal_alignment (tris_num : Int) (l : List (P × P × P × P)) :
    (STLMeshHelper.build P tris_num true (l.map Call.of_normal_tuple)).loop_normals_.length
      = 3 * (STLMeshHelper.build P tris_num true (l.map Call.of_normal_tuple)).tris_.length ∧
    (STLMeshHelper.build P tris_num true (l.map Call.of_normal_tuple)).tris_.length
      = (accepted (l.map Call.of_normal_tuple)).length ∧
    (STLMeshHelper.build P tris_num true (l.map Call.of_normal_tuple)).loop_normals_
      = (accepted (l.map Call.of_normal_tuple)).flatMap Call.corner_normals ∧
    ∀ (k : Nat) (a b c n : P),
      (accepted (l.map Call.of_normal_tuple))[k]? = some (Call.with_normal a b c n) →
        (STLMeshHelper.build P tris_num true (l.map Call.of_normal_tuple)).tris_[k]?
          = some (index_triple
              (STLMeshHelper.build P tris_num true (l.map Call.of_normal_tuple)).verts_ (a, b, c)) ∧
        (STLMeshHelper.build P tris_num true (l.map Call.of_normal_tuple)).loop_normals_[3 * k]?
          = some n ∧
        (STLMeshHelper.build P tris_num true (l.map Call.of_normal_tuple)).loop_normals_[3 * k + 1]?
          = some n ∧
        (STLMeshHelper.build P tris_num true (l.map Call.of_normal_tuple)).loop_normals_[3 * k + 2]?
          = some n := by
  have hinv := inv_run tris_num true (l.map Call.of_normal_tuple)
  have hall : ∀ call ∈ accepted (l.map Call.of_normal_tuple), ∃ q, call = Call.of_normal_tuple q := by
    intro call hc
    obtain ⟨q, -, hq⟩ := List.mem_map.1 (accepted_subset _ call hc)
    exact ⟨q, hq.symm⟩
  obtain ⟨hlen, hget⟩ := flatMap_corner_normals_with_normal _ hall
  unfold STLMeshHelper.build
  have htl : ((STLMeshHelper.ctor P tris_num true).run (l.map Call.of_normal_tuple)).tris_.length
      = (accepted (l.map Call.of_normal_tuple)).length := by
    rw [hinv.tris, List.length_map]
  refine ⟨?_, htl, hinv.normals, ?_⟩
  · rw [hinv.normals, hlen, htl]
  · intro k a b c n hk
    refine ⟨?_, ?_⟩
    · rw [hinv.tris, List.getElem?_map, hk]
      rfl
    · rw [hinv.normals]
      exact hget k a b c n hk

/-- Witness for C8: in the example run the second accepted call is the third call, with
normal `(0,1,0)`; slots 3, 4, 5 of the normal sequence hold that normal. -/
theorem C8_normal_alignment_witness :
    (STLMeshHelper.build float3 0 true
      (example_normal_calls.map Call.of_normal_tuple)).tris_[1]? = some ⟨1, 0, 2⟩ ∧
    (STLMeshHelper.build float3 0 true
      (example_normal_calls.map Call.of_normal_tuple)).loop_normals_[3 * 1]? = some p010 ∧
    (STLMeshHelper.build float3 0 true
      (example_normal_calls.map Call.of_normal_tuple)).loop_normals_[3 * 1 + 1]? = some p010 ∧
    (STLMeshHelper.build float3 0 true
      (example_normal_calls.map Call.of_normal_tuple)).loop_normals_[3 * 1 + 2]? = some p010 :=
  ⟨by decide,
   ((C8_normal_alignment 0 example_normal_calls).2.2.2 1 p100 p000 p010 p010 (by decide)).2⟩

/-- C9 as stated fails: on a builder constructed with custom normals disabled, one accepted
call of the normal-bearing overload leaves a non-empty normal sequence. -/
theorem C9_counterexample :
    ¬ ((STLMeshHelper.build float3 0 false
        [Call.with_normal p000 p100 p010 n001]).loop_normals_ = []) := by
  decide

/-- C9, amended: for a builder constructed with custom normals disabled, the per-corner
normal sequence is empty after every sequence of calls of the three-point overload, and
`to_mesh` attaches no normals and leaves the custom-shading flag clear whichever overloads
were used; the normal-bearing overload appends three copies of the normal exactly when the
triangle was accepted, whether or not custom normals are tracked, and the three-point
overload never changes the normal sequence. -/
theorem C9_normals_tracking (tris_num : Int) (inputs : List (P × P × P))
    (calls : List (Call P)) (alloc : Int → List Int) (s : STLMeshHelper P) (a b c n : P) :
    (STLMeshHelper.build P tris_num false (inputs.map Call.of_triple)).loop_normals_ = [] ∧
    ((STLMeshHelper.build P tris_num false calls).to_mesh alloc).2.custom_normals = none ∧
    ((STLMeshHelper.build P tris_num false calls).to_mesh alloc).2.flag_autosmooth = false ∧
    (s.add_triangle_custom_normal a b c n).loop_normals_
      = s.loop_normals_ ++ (if (s.add_triangle a b c).1 then [n, n, n] else []) ∧
    (s.add_triangle a b c).2.loop_normals_ = s.loop_normals_ := by
  refine ⟨?_, ?_, ?_, ?_, ?_⟩
  · have hinv := inv_run tris_num false (inputs.map Call.of_triple)
    unfold STLMeshHelper.build
    rw [hinv.normals]
    apply flatMap_corner_normals_plain
    intro call hc
    obtain ⟨t, -, ht⟩ := List.mem_map.1 (accepted_subset _ call hc)
    exact ⟨t, ht.symm⟩
  · exact (to_mesh_of_disabled alloc _
      (run_use_custom_normals (STLMeshHelper.ctor P tris_num false) calls)).1
  · exact (to_mesh_of_disabled alloc _
      (run_use_custom_normals (STLMeshHelper.ctor P tris_num false) calls)).2
  · unfold STLMeshHelper.add_triangle_custom_normal
    rw [add_triangle_eq]
    split
    · simp
    · split
      · simp
      · simp [Vector.append_n_times, List.replicate]
  · rw [add_triangle_eq]
    split
    · rfl
    · split <;> rfl

/-- C10 as stated fails: a fresh builder constructed with custom normals enabled passes the
length test of `to_mesh` with 0 normals for 0 corners, so the custom-shading flag is set. -/
theorem C10_counterexample :
    ¬ (((STLMeshHelper.ctor float3 0 true).to_mesh (fun _ => [])).2.flag_autosmooth = false ∧
       ((STLMeshHelper.ctor float3 0 true).to_mesh (fun _ => [])).2.custom_normals = none) := by
  decide

/-- C10, amended: for a freshly constructed builder with any capacity hint and either
setting of the custom-normal flag, `to_mesh` produces a mesh with 0 vertices, 0 polygons and
0 corners and emits no diagnostic line; with the flag off it attaches no custom normals and
does not set the custom-shading flag, with the flag on it attaches the empty normal sequence
and sets the custom-shading flag. -/
theorem C10_empty_mesh (tris_num : Int) (use_custom_normals : Bool) (alloc : Int → List Int) :
    ((STLMeshHelper.ctor P tris_num use_custom_normals).to_mesh alloc).1 = [] ∧
    ((STLMeshHelper.ctor P tris_num use_custom_normals).to_mesh alloc).2.totvert = 0 ∧
    ((STLMeshHelper.ctor P tris_num use_custom_normals).to_mesh alloc).2.vert_positions = [] ∧
    ((STLMeshHelper.ctor P tris_num use_custom_normals).to_mesh alloc).2.totpoly = 0 ∧
    ((STLMeshHelper.ctor P tris_num use_custom_normals).to_mesh alloc).2.totloop = 0 ∧
    ((STLMeshHelper.ctor P tris_num use_custom_normals).to_mesh alloc).2.corner_verts = [] ∧
    ((STLMeshHelper.ctor P tris_num use_custom_normals).to_mesh alloc).2.flag_autosmooth
      = use_custom_normals ∧
    ((STLMeshHelper.ctor P tris_num use_custom_normals).to_mesh alloc).2.custom_normals
      = (if use_custom_normals then some [] else none) := by
  cases use_custom_normals <;>
    simp [STLMeshHelper.to_mesh, STLMeshHelper.ctor, diagnostics]

/-! ## Corner and offset arrays -/

theorem to_mesh_corner_verts_length (alloc : Int → List Int) (s : STLMeshHelper P) :
    (s.to_mesh alloc).2.corner_verts.length = 3 * s.tris_.length := by
  rw [to_mesh_corner_verts]
  exact (corner_verts_fold s.tris_ _ (by simp) s.tris_.length (le_refl _)).1

theorem poly_offsets_fold (l0 : List Int) (m : Nat) (hm : m ≤ l0.length) :
    ((List.range m).foldl poly_offsets_step l0).length = l0.length ∧
    ∀ i, i < m → ((List.range m).foldl poly_offsets_step l0)[i]? = some ((i : Int) * 3) := by
  induction m with
  | zero =>
    refine ⟨by simp, ?_⟩
    intro i hi
    omega
  | succ m ih =>
    obtain ⟨hlen, hget⟩ := ih (by omega)
    rw [List.range_succ, List.foldl_append]
    simp only [List.foldl_cons, List.foldl_nil, poly_offsets_step]
    refine ⟨by simp [hlen], ?_⟩
    intro i hi
    by_cases him : i = m
    · subst him
      rw [List.getElem?_set_self (by omega)]
    · rw [List.getElem?_set_ne (by omega)]
      exact hget i (by omega)

theorem to_mesh_poly_offsets (alloc : Int → List Int) (s : STLMeshHelper P) :
    (s.to_mesh alloc).2.poly_offsets =
      (List.range (alloc (s.tris_.length : Nat)).length).foldl poly_offsets_step
        (alloc (s.tris_.length : Nat)) := by
  unfold STLMeshHelper.to_mesh
  simp only
  split <;> rfl

/-- C11: corner layout and order preservation.  For every builder state with triangle list
`T`, `to_mesh` produces `|T|` polygons and a corner-vertex array of length exactly `3*|T|`
whose entries at `3i`, `3i+1`, `3i+2` are `T[i].v1`, `T[i].v2`, `T[i].v3`; hence for `i < j`
every corner slot `3i+k` of triangle `i` lies strictly before every corner slot `3j+k2` of
triangle `j`. -/
theorem C11_corner_layout (alloc : Int → List Int) (s : STLMeshHelper P) :
    (s.to_mesh alloc).2.corner_verts.length = 3 * s.tris_.length ∧
    (s.to_mesh alloc).2.totpoly = (s.tris_.length : Nat) ∧
    (∀ (i : Nat) (t : Triangle), s.tris_[i]? = some t →
      (s.to_mesh alloc).2.corner_verts[3 * i]? = some t.v1 ∧
      (s.to_mesh alloc).2.corner_verts[3 * i + 1]? = some t.v2 ∧
      (s.to_mesh alloc).2.corner_verts[3 * i + 2]? = some t.v3) ∧
    (∀ i j k k2 : Nat, i < j → j < s.tris_.length → k < 3 → k2 < 3 →
      3 * i + k < 3 * j + k2 ∧ 3 * j + k2 < (s.to_mesh alloc).2.corner_verts.length) := by
  refine ⟨to_mesh_corner_verts_length alloc s, to_mesh_totpoly alloc s,
    fun i t h => to_mesh_corner_verts_get alloc s i t h, ?_⟩
  intro i j k k2 hij hj hk hk2
  rw [to_mesh_corner_verts_length]
  omega

/-- Witness for C11: in the example run the second triangle of the list is `(1, 0, 2)` and
occupies corner slots 3, 4, 5, after the slots of the first triangle. -/
theorem C11_corner_layout_witness :
    ((STLMeshHelper.build float3 0 false example_calls).to_mesh example_alloc).2.corner_verts[3 * 1]?
      = some 1 ∧
    ((STLMeshHelper.build float3 0 false example_calls).to_mesh example_alloc).2.corner_verts[3 * 1 + 1]?
      = some 0 ∧
    ((STLMeshHelper.build float3 0 false example_calls).to_mesh example_alloc).2.corner_verts[3 * 1 + 2]?
      = some 2 ∧
    3 * 0 + 2 < 3 * 1 + 0 ∧
    3 * 1 + 0 <
      ((STLMeshHelper.build float3 0 false example_calls).to_mesh example_alloc).2.corner_verts.length :=
  ⟨((C11_corner_layout example_alloc
      (STLMeshHelper.build float3 0 false example_calls)).2.2.1 1 ⟨1, 0, 2⟩ (by decide)).1,
   ((C11_corner_layout example_alloc
      (STLMeshHelper.build float3 0 false example_calls)).2.2.1 1 ⟨1, 0, 2⟩ (by decide)).2.1,
   ((C11_corner_layout example_alloc
      (STLMeshHelper.build float3 0 false example_calls)).2.2.1 1 ⟨1, 0, 2⟩ (by decide)).2.2,
   (C11_corner_layout example_alloc
      (STLMeshHelper.build float3 0 false example_calls)).2.2.2 0 1 2 0 (by decide) (by decide)
      (by decide) (by decide)⟩

/-! ## Attachment of the normals -/

theorem flatMap_corner_normals_length_le (acc : List (Call P)) :
    (acc.flatMap Call.corner_normals).length ≤ 3 * acc.length := by
  induction acc with
  | nil => simp
  | cons x xs ih =>
    cases x <;>
      simp only [List.flatMap_cons, Call.corner_normals, List.length_append, List.length_cons,
        List.length_nil, List.nil_append] <;> omega

/-- The normal sequence of a list of accepted calls has three entries per call exactly
when every one of the calls carries a normal. -/
theorem flatMap_corner_normals_length_iff (acc : List (Call P)) :
    (acc.flatMap Call.corner_normals).length = 3 * acc.length ↔
      ∀ call ∈ acc, ∃ q, call = Call.of_normal_tuple q := by
  induction acc with
  | nil => simp
  | cons x xs ih =>
    have hle := flatMap_corner_normals_length_le xs
    cases x with
    | plain a b c =>
      constructor
      · intro h
        simp only [List.flatMap_cons, Call.corner_normals, List.length_cons,
          List.nil_append] at h
        omega
      · intro h
        obtain ⟨q, hq⟩ := h (Call.plain a b c) (List.mem_cons_self _ _)
        simp [Call.of_normal_tuple] at hq
    | with_normal a b c n =>
      constructor
      · intro h
        simp only [List.flatMap_cons, Call.corner_normals, List.length_append, List.length_cons,
          List.length_nil] at h
        have h2 : (xs.flatMap Call.corner_normals).length = 3 * xs.length := by omega
        intro call hc
        rcases List.mem_cons.1 hc with rfl | hc
        · exact ⟨(a, b, c, n), rfl⟩
        · exact ih.1 h2 call hc
      · intro h
        have h2 := ih.2 (fun call hc => h call (List.mem_cons_of_mem _ hc))
        simp only [List.flatMap_cons, Call.corner_normals, List.length_append, List.length_cons,
          List.length_nil]
        omega

theorem to_mesh_custom_normals (alloc : Int → List Int) (s : STLMeshHelper P) :
    (s.to_mesh alloc).2.custom_normals =
        (if s.use_custom_normals_ = true ∧ s.loop_normals_.length = 3 * s.tris_.length
          then some s.loop_normals_ else none) ∧
    (s.to_mesh alloc).2.flag_autosmooth =
        decide (s.use_custom_normals_ = true ∧ s.loop_normals_.length = 3 * s.tris_.length) := by
  have e : (((s.loop_normals_.length : Nat) : Int) = ((s.tris_.length : Nat) : Int) * 3) ↔
      s.loop_normals_.length = 3 * s.tris_.length := by omega
  unfold STLMeshHelper.to_mesh
  simp only [e]
  split
  · rename_i h
    simp [h]
  · rename_i h
    simp [h]

/-- C12: custom-normal attachment at materialization.  `to_mesh` attaches the per-corner
normals and sets the custom-shading flag if and only if custom normals are tracked and the
normal sequence length equals 3 times the triangle count; what it attaches is the normal
sequence.  For a builder constructed with tracking enabled the lengths agree exactly when
every accepted call used the normal-bearing overload.  The vertices, totals, polygon
offsets and corner vertices do not depend on the normal sequence or on the tracking flag,
so in the mismatch case they are produced exactly as without normals. -/
theorem C12_normal_attachment (alloc : Int → List Int) (s : STLMeshHelper P) (tris_num : Int)
    (calls : List (Call P)) (normals : List P) (flag : Bool) :
    (((s.to_mesh alloc).2.custom_normals = some s.loop_normals_ ∧
        (s.to_mesh alloc).2.flag_autosmooth = true) ↔
      (s.use_custom_normals_ = true ∧ s.loop_normals_.length = 3 * s.tris_.length)) ∧
    (((s.to_mesh alloc).2.custom_normals = none ∧
        (s.to_mesh alloc).2.flag_autosmooth = false) ↔
      ¬ (s.use_custom_normals_ = true ∧ s.loop_normals_.length = 3 * s.tris_.length)) ∧
    ((STLMeshHelper.build P tris_num true calls).use_custom_normals_ = true) ∧
    ((STLMeshHelper.build P tris_num true calls).loop_normals_.length
        = 3 * (STLMeshHelper.build P tris_num true calls).tris_.length ↔
      ∀ call ∈ accepted calls, ∃ q, call = Call.of_normal_tuple q) ∧
    (({ s with loop_normals_ := normals, use_custom_normals_ := flag }.to_mesh alloc).2.vert_positions
        = (s.to_mesh alloc).2.vert_positions ∧
     ({ s with loop_normals_ := normals, use_custom_normals_ := flag }.to_mesh alloc).2.totvert
        = (s.to_mesh alloc).2.totvert ∧
     ({ s with loop_normals_ := normals, use_custom_normals_ := flag }.to_mesh alloc).2.totpoly
        = (s.to_mesh alloc).2.totpoly ∧
     ({ s with loop_normals_ := normals, use_custom_normals_ := flag }.to_mesh alloc).2.totloop
        = (s.to_mesh alloc).2.totloop ∧
     ({ s with loop_normals_ := normals, use_custom_normals_ := flag }.to_mesh alloc).2.poly_offsets
        = (s.to_mesh alloc).2.poly_offsets ∧
     ({ s with loop_normals_ := normals, use_custom_normals_ := flag }.to_mesh alloc).2.corner_verts
        = (s.to_mesh alloc).2.corner_verts) := by
  obtain ⟨hc, hf⟩ := to_mesh_custom_normals alloc s
  refine ⟨?_, ?_, ?_, ?_, ?_⟩
  · rw [hc, hf]
    by_cases h : s.use_custom_normals_ = true ∧ s.loop_normals_.length = 3 * s.tris_.length
    · simp [h]
    · simp [h]
  · rw [hc, hf]
    by_cases h : s.use_custom_normals_ = true ∧ s.loop_normals_.length = 3 * s.tris_.length
    · simp [h]
    · simp [h]
  · exact run_use_custom_normals (STLMeshHelper.ctor P tris_num true) calls
  · have hinv := inv_run tris_num true calls
    unfold STLMeshHelper.build
    rw [hinv.normals, hinv.tris, List.length_map]
    exact flatMap_corner_normals_length_iff (accepted calls)
  · rw [to_mesh_vert_positions, to_mesh_vert_positions, to_mesh_totvert, to_mesh_totvert,
      to_mesh_totpoly, to_mesh_totpoly, to_mesh_totloop, to_mesh_totloop, to_mesh_poly_offsets,
      to_mesh_poly_offsets, to_mesh_corner_verts, to_mesh_corner_verts]
    exact ⟨rfl, rfl, rfl, rfl, rfl, rfl⟩

/-- C13: polygon offsets.  For every builder state, every entry `i` of the polygon-offset
array after `to_mesh` equals `3*i`, whatever array the host allocated; so two consecutive
entries differ by exactly 3, and when the array has an entry at index `|T|` that entry is
the corner count `3*|T|`. -/
theorem C13_poly_offsets (alloc : Int → List Int) (s : STLMeshHelper P) :
    (s.to_mesh alloc).2.poly_offsets.length = (alloc (s.tris_.length : Nat)).length ∧
    (∀ i : Nat, i < (s.to_mesh alloc).2.poly_offsets.length →
      (s.to_mesh alloc).2.poly_offsets[i]? = some (3 * (i : Int))) ∧
    (∀ i : Nat, i + 1 < (s.to_mesh alloc).2.poly_offsets.length →
      ∃ x y : Int, (s.to_mesh alloc).2.poly_offsets[i]? = some x ∧
        (s.to_mesh alloc).2.poly_offsets[i + 1]? = some y ∧ y - x = 3) ∧
    (s.tris_.length < (s.to_mesh alloc).2.poly_offsets.length →
      (s.to_mesh alloc).2.poly_offsets[s.tris_.length]? = some (s.to_mesh alloc).2.totloop) := by
  obtain ⟨hlen, hget⟩ := poly_offsets_fold (alloc (s.tris_.length : Nat)) _ (le_refl _)
  rw [to_mesh_poly_offsets, to_mesh_totloop, hlen]
  refine ⟨rfl, ?_, ?_, ?_⟩
  · intro i hi
    rw [hget i hi, mul_comm]
  · intro i hi
    refine ⟨_, _, hget i (by omega), hget (i + 1) hi, ?_⟩
    push_cast
    ring
  · intro hi
    exact hget _ hi

/-- Witness for C13: in the example run, with one offset per polygon and a trailing one,
entry 1 is 3 and the trailing entry 2 is the corner count 6. -/
theorem C13_poly_offsets_witness :
    ((STLMeshHelper.build float3 0 false example_calls).to_mesh example_alloc).2.poly_offsets[1]?
      = some (3 * ((1 : Nat) : Int)) ∧
    ((STLMeshHelper.build float3 0 false example_calls).to_mesh example_alloc).2.poly_offsets[
        (STLMeshHelper.build float3 0 false example_calls).tris_.length]?
      = some ((STLMeshHelper.build float3 0 false example_calls).to_mesh example_alloc).2.totloop ∧
    ((STLMeshHelper.build float3 0 false example_calls).to_mesh example_alloc).2.totloop = 6 :=
  ⟨(C13_poly_offsets example_alloc (STLMeshHelper.build float3 0 false example_calls)).2.1 1
      (by decide),
   (C13_poly_offsets example_alloc (STLMeshHelper.build float3 0 false example_calls)).2.2.2
      (by decide),
   by decide⟩

/-- Witness for C12: in the example run of the normal-bearing overload on a builder with
tracking enabled every accepted call carries a normal, so the lengths agree and `to_mesh`
attaches the normal sequence and sets the custom-shading flag. -/
theorem C12_normal_attachment_witness :
    (STLMeshHelper.build float3 0 true
        (example_normal_calls.map Call.of_normal_tuple)).loop_normals_.length
      = 3 * (STLMeshHelper.build float3 0 true
        (example_normal_calls.map Call.of_normal_tuple)).tris_.length ∧
    (((STLMeshHelper.build float3 0 true
        (example_normal_calls.map Call.of_normal_tuple)).to_mesh example_alloc).2.custom_normals
      = some (STLMeshHelper.build float3 0 true
        (example_normal_calls.map Call.of_normal_tuple)).loop_normals_ ∧
     ((STLMeshHelper.build float3 0 true
        (example_normal_calls.map Call.of_normal_tuple)).to_mesh example_alloc).2.flag_autosmooth
      = true) :=
  ⟨(C12_normal_attachment example_alloc (STLMeshHelper.ctor float3 0 true) 0
      (example_normal_calls.map Call.of_normal_tuple) [] true).2.2.2.1.2
      (fun call hc => by
        obtain ⟨q, -, hq⟩ := List.mem_map.1 (accepted_subset _ call hc)
        exact ⟨q, hq.symm⟩),
   (C12_normal_attachment example_alloc
      (STLMeshHelper.build float3 0 true (example_normal_calls.map Call.of_normal_tuple)) 0
      [] [] true).1.2 (by decide)⟩

/-! ## The triangle list -/

theorem Inv.tri_origin {calls : List (Call P)} {s : STLMeshHelper P} (h : Inv calls s)
    (t : Triangle) (ht : t ∈ s.tris_) :
    ∃ call ∈ accepted calls, index_triple s.verts_ call.points = t := by
  rw [h.tris] at ht
  exact List.mem_map.1 ht

theorem index_triple_distinct {verts : List P} {t : P × P × P} (hin : points_in verts t)
    (hn : nondegenerate t) :
    (index_triple verts t).v1 ≠ (index_triple verts t).v2 ∧
    (index_triple verts t).v1 ≠ (index_triple verts t).v3 ∧
    (index_triple verts t).v2 ≠ (index_triple verts t).v3 := by
  unfold index_triple
  simp only [ne_eq, Nat.cast_inj, List.indexOf_inj hin.1 hin.2.1, List.indexOf_inj hin.1 hin.2.2,
    List.indexOf_inj hin.2.1 hin.2.2]
  exact hn

theorem index_triple_bounds {verts : List P} {t : P × P × P} (hin : points_in verts t) :
    (0 ≤ (index_triple verts t).v1 ∧ (index_triple verts t).v1 < (verts.length : Nat)) ∧
    (0 ≤ (index_triple verts t).v2 ∧ (index_triple verts t).v2 < (verts.length : Nat)) ∧
    (0 ≤ (index_triple verts t).v3 ∧ (index_triple verts t).v3 < (verts.length : Nat)) := by
  have h1 := List.indexOf_lt_length.2 hin.1
  have h2 := List.indexOf_lt_length.2 hin.2.1
  have h3 := List.indexOf_lt_length.2 hin.2.2
  unfold index_triple
  simp only
  omega

theorem accepted_points_nodup (l : List (Call P)) : ((accepted l).map Call.points).Nodup := by
  induction l using List.reverseRecOn with
  | nil => simp [accepted, accepted_from]
  | append_singleton xs x ih =>
    rw [accepted_append, List.map_append]
    split
    · rename_i hx
      refine List.Nodup.append ih (by simp) ?_
      intro t ht ht2
      simp only [List.map_cons, List.map_nil, List.mem_singleton] at ht2
      subst ht2
      obtain ⟨call, hc, he⟩ := List.mem_map.1 ht
      exact hx.2 (List.mem_map.2 ⟨call, accepted_subset xs call hc, he⟩)
    · simpa using ih

theorem Inv.tris_nodup {calls : List (Call P)} {s : STLMeshHelper P} (h : Inv calls s) :
    s.tris_.Nodup := by
  have e : s.tris_ = ((accepted calls).map Call.points).map (index_triple s.verts_) := by
    rw [h.tris, List.map_map]
    rfl
  rw [e]
  apply List.Nodup.map_on _ (accepted_points_nodup calls)
  intro x hx y hy hxy
  obtain ⟨cx, hcx, rfl⟩ := List.mem_map.1 hx
  obtain ⟨cy, hcy, rfl⟩ := List.mem_map.1 hy
  exact index_triple_inj (h.points_in_of_accepted cx hcx) (h.points_in_of_accepted cy hcy) hxy

/-- C14: accepted triangles are never degenerate.  In every builder state reached from a
fresh builder by `add_triangle` calls, every triple of the triangle list has `v1 ≠ v2`,
`v1 ≠ v3` and `v2 ≠ v3`. -/
theorem C14_never_degenerate (tris_num : Int) (use_custom_normals : Bool)
    (calls : List (Call P)) (t : Triangle)
    (ht : t ∈ (STLMeshHelper.build P tris_num use_custom_normals calls).tris_) :
    t.v1 ≠ t.v2 ∧ t.v1 ≠ t.v3 ∧ t.v2 ≠ t.v3 := by
  have hinv := inv_run tris_num use_custom_normals calls
  obtain ⟨call, hc, rfl⟩ := hinv.tri_origin t ht
  exact index_triple_distinct (hinv.points_in_of_accepted call hc)
    (accepted_nondegenerate calls call hc)

/-- Witness for C14: the triangle `(1, 0, 2)` of the example run has pairwise distinct
indices. -/
theorem C14_never_degenerate_witness :
    (⟨1, 0, 2⟩ : Triangle) ∈ (STLMeshHelper.build float3 0 false example_calls).tris_ ∧
    ((⟨1, 0, 2⟩ : Triangle).v1 ≠ (⟨1, 0, 2⟩ : Triangle).v2 ∧
     (⟨1, 0, 2⟩ : Triangle).v1 ≠ (⟨1, 0, 2⟩ : Triangle).v3 ∧
     (⟨1, 0, 2⟩ : Triangle).v2 ≠ (⟨1, 0, 2⟩ : Triangle).v3) :=
  ⟨by decide, C14_never_degenerate 0 false example_calls ⟨1, 0, 2⟩ (by decide)⟩

/-- C15: no repeated ordered triple.  In every builder state reached from a fresh builder
by `add_triangle` calls, no two positions of the triangle list hold the same ordered index
triple, and so no two polygons of the mesh produced by `to_mesh` have the same ordered
triple of corner vertices. -/
theorem C15_no_repeated_triple (tris_num : Int) (use_custom_normals : Bool)
    (calls : List (Call P)) (alloc : Int → List Int) :
    (STLMeshHelper.build P tris_num use_custom_normals calls).tris_.Nodup ∧
    (∀ i j : Nat, i < j →
      j < (STLMeshHelper.build P tris_num use_custom_normals calls).tris_.length →
      (STLMeshHelper.build P tris_num use_custom_normals calls).tris_[i]?
        ≠ (STLMeshHelper.build P tris_num use_custom_normals calls).tris_[j]?) ∧
    (∀ i j : Nat, i < j →
      j < (STLMeshHelper.build P tris_num use_custom_normals calls).tris_.length →
      ¬ (((STLMeshHelper.build P tris_num use_custom_normals calls).to_mesh alloc).2.corner_verts[3 * i]?
          = ((STLMeshHelper.build P tris_num use_custom_normals calls).to_mesh alloc).2.corner_verts[3 * j]? ∧
        ((STLMeshHelper.build P tris_num use_custom_normals calls).to_mesh alloc).2.corner_verts[3 * i + 1]?
          = ((STLMeshHelper.build P tris_num use_custom_normals calls).to_mesh alloc).2.corner_verts[3 * j + 1]? ∧
        ((STLMeshHelper.build P tris_num use_custom_normals calls).to_mesh alloc).2.corner_verts[3 * i + 2]?
          = ((STLMeshHelper.build P tris_num use_custom_normals calls).to_mesh alloc).2.corner_verts[3 * j + 2]?)) := by
  have hinv := inv_run tris_num use_custom_normals calls
  unfold STLMeshHelper.build
  have hnd := hinv.tris_nodup
  have hne := List.nodup_iff_getElem?_ne_getElem?.1 hnd
  refine ⟨hnd, hne, ?_⟩
  intro i j hij hj
  have hi : i < ((STLMeshHelper.ctor P tris_num use_custom_normals).run calls).tris_.length := by
    omega
  have hti := List.getElem?_eq_getElem hi
  have htj := List.getElem?_eq_getElem hj
  obtain ⟨a1, a2, a3⟩ := to_mesh_corner_verts_get alloc _ i _ hti
  obtain ⟨b1, b2, b3⟩ := to_mesh_corner_verts_get alloc _ j _ htj
  rw [a1, a2, a3, b1, b2, b3]
  rintro ⟨e1, e2, e3⟩
  apply hne i j hij hj
  rw [hti, htj]
  simp only [Option.some.injEq] at e1 e2 e3 ⊢
  cases hx : ((STLMeshHelper.ctor P tris_num use_custom_normals).run calls).tris_[i]
  cases hy : ((STLMeshHelper.ctor P tris_num use_custom_normals).run calls).tris_[j]
  rw [hx] at e1 e2 e3
  rw [hy] at e1 e2 e3
  simp only at e1 e2 e3
  rw [e1, e2, e3]

/-- Witness for C15: the two triangles of the example run differ, and so do the corner
triples of the two polygons of its mesh. -/
theorem C15_no_repeated_triple_witness :
    (STLMeshHelper.build float3 0 false example_calls).tris_[0]?
      ≠ (STLMeshHelper.build float3 0 false example_calls).tris_[1]? ∧
    ¬ (((STLMeshHelper.build float3 0 false example_calls).to_mesh example_alloc).2.corner_verts[3 * 0]?
          = ((STLMeshHelper.build float3 0 false example_calls).to_mesh example_alloc).2.corner_verts[3 * 1]? ∧
        ((STLMeshHelper.build float3 0 false example_calls).to_mesh example_alloc).2.corner_verts[3 * 0 + 1]?
          = ((STLMeshHelper.build float3 0 false example_calls).to_mesh example_alloc).2.corner_verts[3 * 1 + 1]? ∧
        ((STLMeshHelper.build float3 0 false example_calls).to_mesh example_alloc).2.corner_verts[3 * 0 + 2]?
          = ((STLMeshHelper.build float3 0 false example_calls).to_mesh example_alloc).2.corner_verts[3 * 1 + 2]?) :=
  ⟨(C15_no_repeated_triple 0 false example_calls example_alloc).2.1 0 1 (by decide) (by decide),
   (C15_no_repeated_triple 0 false example_calls example_alloc).2.2 0 1 (by decide) (by decide)⟩

/-! ## Duplicate rejection -/

/-- The index triple computed by `add_triangle` is the index triple of the three points in
the vertex table after interning them. -/
theorem add_triangle_ids_eq (s : STLMeshHelper P) (a b c : P) :
    s.add_triangle_ids a b c = index_triple (intern3 s.verts_ a b c) (a, b, c) := by
  have hp2 := index_of_or_add_extends (VectorSet.index_of_or_add s.verts_ a).2 b
  have hp3 := index_of_or_add_extends
    (VectorSet.index_of_or_add (VectorSet.index_of_or_add s.verts_ a).2 b).2 c
  have ha1 := index_of_or_add_self_mem s.verts_ a
  have hb2 := index_of_or_add_self_mem (VectorSet.index_of_or_add s.verts_ a).2 b
  unfold STLMeshHelper.add_triangle_ids index_triple
  simp only [Triangle.mk.injEq]
  refine ⟨?_, ?_, ?_⟩
  · rw [index_of_or_add_fst]
    unfold intern3
    rw [indexOf_of_extends (hp2.trans hp3) ha1]
  · rw [index_of_or_add_fst]
    unfold intern3
    rw [indexOf_of_extends hp3 hb2]
  · rw [index_of_or_add_fst]
    rfl

/-- C16: duplicate rejection changes nothing but its counter.  In every state reached from
a fresh builder, a call of `add_triangle` whose three computed indices are pairwise
distinct and whose ordered index triple is already in the triangle set returns false,
leaves the vertex table, the triangle list, the normal sequence and the degenerate counter
as they were and increases the duplicate counter by exactly 1; the overload with a normal
ends in the same state. -/
theorem C16_duplicate_rejection (tris_num : Int) (use_custom_normals : Bool)
    (calls : List (Call P)) (a b c : P)
    (hd : ((STLMeshHelper.build P tris_num use_custom_normals calls).add_triangle_ids a b c).v1
          ≠ ((STLMeshHelper.build P tris_num use_custom_normals calls).add_triangle_ids a b c).v2 ∧
        ((STLMeshHelper.build P tris_num use_custom_normals calls).add_triangle_ids a b c).v1
          ≠ ((STLMeshHelper.build P tris_num use_custom_normals calls).add_triangle_ids a b c).v3 ∧
        ((STLMeshHelper.build P tris_num use_custom_normals calls).add_triangle_ids a b c).v2
          ≠ ((STLMeshHelper.build P tris_num use_custom_normals calls).add_triangle_ids a b c).v3)
    (hm : (STLMeshHelper.build P tris_num use_custom_normals calls).add_triangle_ids a b c
          ∈ (STLMeshHelper.build P tris_num use_custom_normals calls).tris_) :
    ((STLMeshHelper.build P tris_num use_custom_normals calls).add_triangle a b c).1 = false ∧
    ((STLMeshHelper.build P tris_num use_custom_normals calls).add_triangle a b c).2.verts_
      = (STLMeshHelper.build P tris_num use_custom_normals calls).verts_ ∧
    ((STLMeshHelper.build P tris_num use_custom_normals calls).add_triangle a b c).2.tris_
      = (STLMeshHelper.build P tris_num use_custom_normals calls).tris_ ∧
    ((STLMeshHelper.build P tris_num use_custom_normals calls).add_triangle a b c).2.loop_normals_
      = (STLMeshHelper.build P tris_num use_custom_normals calls).loop_normals_ ∧
    ((STLMeshHelper.build P tris_num use_custom_normals calls).add_triangle a b c).2.degenerate_tris_num_
      = (STLMeshHelper.build P tris_num use_custom_normals calls).degenerate_tris_num_ ∧
    ((STLMeshHelper.build P tris_num use_custom_normals calls).add_triangle a b c).2.duplicate_tris_num_
      = (STLMeshHelper.build P tris_num use_custom_normals calls).duplicate_tris_num_ + 1 ∧
    ∀ n : P, (STLMeshHelper.build P tris_num use_custom_normals calls).add_triangle_custom_normal
        a b c n
      = ((STLMeshHelper.build P tris_num use_custom_normals calls).add_triangle a b c).2 := by
  have hinv := inv_run tris_num use_custom_normals calls
  unfold STLMeshHelper.build at hd hm ⊢
  rw [add_triangle_ids_eq] at hd hm
  have hn : nondegenerate (a, b, c) := by
    unfold index_triple at hd
    simp only [ne_eq, Nat.cast_inj] at hd
    refine ⟨?_, ?_, ?_⟩
    · intro e; exact hd.1 (congrArg (fun p => List.indexOf p _) (show a = b from e))
    · intro e; exact hd.2.1 (congrArg (fun p => List.indexOf p _) (show a = c from e))
    · intro e; exact hd.2.2 (congrArg (fun p => List.indexOf p _) (show b = c from e))
  have hsub := (hinv.mem_tris_iff (a, b, c) hn).1 hm
  obtain ⟨call, hcall, hpts⟩ := List.mem_map.1 hsub
  have hin := points_in_submitted calls call hcall
  rw [hpts] at hin
  have hsame := intern3_of_mem _ a b c ((hinv.mem _).2 hin.1) ((hinv.mem _).2 hin.2.1)
    ((hinv.mem _).2 hin.2.2)
  unfold STLMeshHelper.add_triangle_custom_normal
  rw [add_triangle_eq, if_neg (not_not.2 hn), if_pos hm]
  simp [hsame]

/-- Witness for C16: after triangle A, submitting A again computes the indices `(0, 1, 2)`,
which are in the triangle set; the call is rejected and only the duplicate counter
changes, to 1. -/
theorem C16_duplicate_rejection_witness :
    ((STLMeshHelper.build float3 0 false [Call.plain p000 p100 p010]).add_triangle
        p000 p100 p010).1 = false ∧
    ((STLMeshHelper.build float3 0 false [Call.plain p000 p100 p010]).add_triangle
        p000 p100 p010).2.verts_
      = (STLMeshHelper.build float3 0 false [Call.plain p000 p100 p010]).verts_ ∧
    ((STLMeshHelper.build float3 0 false [Call.plain p000 p100 p010]).add_triangle
        p000 p100 p010).2.duplicate_tris_num_ = 1 :=
  ⟨(C16_duplicate_rejection 0 false [Call.plain p000 p100 p010] p000 p100 p010
      (by decide) (by decide)).1,
   (C16_duplicate_rejection 0 false [Call.plain p000 p100 p010] p000 p100 p010
      (by decide) (by decide)).2.1,
   by decide⟩

/-! ## Diagnostics -/

theorem degenerate_line_ne_duplicate_line (n m : Int) :
    degenerate_line n ≠ duplicate_line m := by
  intro h
  have h2 := congrArg (fun s : String => s.data.reverse[26]?) h
  simp only [degenerate_line, duplicate_line, String.data_append, List.reverse_append] at h2
  rw [List.getElem?_append_left (by decide), List.getElem?_append_left (by decide)] at h2
  revert h2
  decide

theorem to_mesh_out (alloc : Int → List Int) (s : STLMeshHelper P) :
    (s.to_mesh alloc).1 =
      (if s.degenerate_tris_num_ > 0 then [degenerate_line s.degenerate_tris_num_] else []) ++
      (if s.duplicate_tris_num_ > 0 then [duplicate_line s.duplicate_tris_num_] else []) := by
  unfold STLMeshHelper.to_mesh
  simp only
  split <;> rfl

theorem to_mesh_mesh_eq (alloc : Int → List Int) (s : STLMeshHelper P) (d1 d2 : Int) :
    ({ s with degenerate_tris_num_ := d1, duplicate_tris_num_ := d2 }.to_mesh alloc).2
      = (s.to_mesh alloc).2 := by
  unfold STLMeshHelper.to_mesh
  simp only
  split <;> rfl

/-- C17: diagnostics.  `to_mesh` writes the degenerate-triangle line if and only if the
degenerate counter is greater than 0 and the duplicate-triangle line if and only if the
duplicate counter is greater than 0, the degenerate line first; each line is
`STL Importer: ` followed by the counter's value and ` degenerate triangles were removed`
or ` duplicate triangles were removed`; the mesh is the same whatever the two counters
hold. -/
theorem C17_diagnostics (alloc : Int → List Int) (s : STLMeshHelper P) (d1 d2 : Int) :
    (degenerate_line s.degenerate_tris_num_ ∈ (s.to_mesh alloc).1 ↔
      s.degenerate_tris_num_ > 0) ∧
    (duplicate_line s.duplicate_tris_num_ ∈ (s.to_mesh alloc).1 ↔
      s.duplicate_tris_num_ > 0) ∧
    (s.to_mesh alloc).1 =
      (if s.degenerate_tris_num_ > 0 then [degenerate_line s.degenerate_tris_num_] else []) ++
      (if s.duplicate_tris_num_ > 0 then [duplicate_line s.duplicate_tris_num_] else []) ∧
    degenerate_line s.degenerate_tris_num_ =
      "STL Importer: " ++ toString s.degenerate_tris_num_ ++ " degenerate triangles were removed" ∧
    duplicate_line s.duplicate_tris_num_ =
      "STL Importer: " ++ toString s.duplicate_tris_num_ ++ " duplicate triangles were removed" ∧
    ({ s with degenerate_tris_num_ := d1, duplicate_tris_num_ := d2 }.to_mesh alloc).2
      = (s.to_mesh alloc).2 := by
  have hne := degenerate_line_ne_duplicate_line s.degenerate_tris_num_ s.duplicate_tris_num_
  refine ⟨?_, ?_, to_mesh_out alloc s, rfl, rfl, to_mesh_mesh_eq alloc s d1 d2⟩
  · rw [to_mesh_out]
    by_cases h1 : s.degenerate_tris_num_ > 0 <;> by_cases h2 : s.duplicate_tris_num_ > 0 <;>
      simp [h1, h2, hne]
  · rw [to_mesh_out]
    by_cases h1 : s.degenerate_tris_num_ > 0 <;> by_cases h2 : s.duplicate_tris_num_ > 0 <;>
      simp [h1, h2, hne.symm]

/-! ## Accounting -/

/-- Every call increases exactly one of the triangle count, the degenerate counter and the
duplicate counter by 1 and leaves the other two unchanged. -/
theorem step_counts (s : STLMeshHelper P) (call : Call P) :
    ((s.step call).tris_.length = s.tris_.length + 1 ∧
        (s.step call).degenerate_tris_num_ = s.degenerate_tris_num_ ∧
        (s.step call).duplicate_tris_num_ = s.duplicate_tris_num_) ∨
    ((s.step call).tris_.length = s.tris_.length ∧
        (s.step call).degenerate_tris_num_ = s.degenerate_tris_num_ + 1 ∧
        (s.step call).duplicate_tris_num_ = s.duplicate_tris_num_) ∨
    ((s.step call).tris_.length = s.tris_.length ∧
        (s.step call).degenerate_tris_num_ = s.degenerate_tris_num_ ∧
        (s.step call).duplicate_tris_num_ = s.duplicate_tris_num_ + 1) := by
  rw [step_eq]
  split
  · right; left; exact ⟨rfl, rfl, rfl⟩
  · split
    · right; right; exact ⟨rfl, rfl, rfl⟩
    · left; exact ⟨by simp, rfl, rfl⟩

theorem run_counts (tris_num : Int) (use_custom_normals : Bool) (calls : List (Call P)) :
    (((STLMeshHelper.ctor P tris_num use_custom_normals).run calls).tris_.length : Int)
      + ((STLMeshHelper.ctor P tris_num use_custom_normals).run calls).degenerate_tris_num_
      + ((STLMeshHelper.ctor P tris_num use_custom_normals).run calls).duplicate_tris_num_
      = (calls.length : Nat) ∧
    0 ≤ ((STLMeshHelper.ctor P tris_num use_custom_normals).run calls).degenerate_tris_num_ ∧
    0 ≤ ((STLMeshHelper.ctor P tris_num use_custom_normals).run calls).duplicate_tris_num_ := by
  induction calls using List.reverseRecOn with
  | nil => simp [STLMeshHelper.run, STLMeshHelper.ctor]
  | append_singleton xs x ih =>
    rw [run_append, List.length_append, List.length_singleton]
    rcases step_counts ((STLMeshHelper.ctor P tris_num use_custom_normals).run xs) x with
      ⟨h1, h2, h3⟩ | ⟨h1, h2, h3⟩ | ⟨h1, h2, h3⟩ <;>
    · rw [h1, h2, h3]
      push_cast
      omega

/-- C18: every call is accounted for exactly once.  After any sequence of `n` calls of
either overload on a fresh builder, triangle count + degenerate counter + duplicate counter
= `n`; each call increases exactly one of the three by 1 and leaves the other two
unchanged, so neither counter ever decreases; and the three-point overload returns true
exactly when the triangle count grew. -/
theorem C18_accounting (tris_num : Int) (use_custom_normals : Bool) (calls : List (Call P))
    (s : STLMeshHelper P) (call : Call P) (a b c : P) :
    (((STLMeshHelper.build P tris_num use_custom_normals calls).tris_.length : Int)
      + (STLMeshHelper.build P tris_num use_custom_normals calls).degenerate_tris_num_
      + (STLMeshHelper.build P tris_num use_custom_normals calls).duplicate_tris_num_
      = (calls.length : Nat)) ∧
    (((s.step call).tris_.length = s.tris_.length + 1 ∧
        (s.step call).degenerate_tris_num_ = s.degenerate_tris_num_ ∧
        (s.step call).duplicate_tris_num_ = s.duplicate_tris_num_) ∨
     ((s.step call).tris_.length = s.tris_.length ∧
        (s.step call).degenerate_tris_num_ = s.degenerate_tris_num_ + 1 ∧
        (s.step call).duplicate_tris_num_ = s.duplicate_tris_num_) ∨
     ((s.step call).tris_.length = s.tris_.length ∧
        (s.step call).degenerate_tris_num_ = s.degenerate_tris_num_ ∧
        (s.step call).duplicate_tris_num_ = s.duplicate_tris_num_ + 1)) ∧
    (s.degenerate_tris_num_ ≤ (s.step call).degenerate_tris_num_ ∧
      s.duplicate_tris_num_ ≤ (s.step call).duplicate_tris_num_) ∧
    ((s.add_triangle a b c).1 = true ↔
      (s.add_triangle a b c).2.tris_.length = s.tris_.length + 1) := by
  refine ⟨(run_counts tris_num use_custom_normals calls).1, step_counts s call, ?_, ?_⟩
  · rcases step_counts s call with ⟨-, h2, h3⟩ | ⟨-, h2, h3⟩ | ⟨-, h2, h3⟩ <;>
    · rw [h2, h3]
      omega
  · rw [add_triangle_eq]
    split
    · simp
    · split
      · simp
      · simp

/-! ## Index bounds -/

/-- Every entry of the corner-vertex array is one of the three indices of a triangle of the
list. -/
theorem corner_entry_origin (alloc : Int → List Int) (s : STLMeshHelper P) (j : Nat) (v : Int)
    (h : (s.to_mesh alloc).2.corner_verts[j]? = some v) :
    ∃ t ∈ s.tris_, v = t.v1 ∨ v = t.v2 ∨ v = t.v3 := by
  have hj : j < 3 * s.tris_.length := by
    rw [← to_mesh_corner_verts_length alloc s]
    exact (List.getElem?_eq_some.1 h).1
  have hi : j / 3 < s.tris_.length := by omega
  have hti := List.getElem?_eq_getElem hi
  obtain ⟨g1, g2, g3⟩ := to_mesh_corner_verts_get alloc s (j / 3) _ hti
  refine ⟨s.tris_[j / 3], List.getElem_mem _, ?_⟩
  have hk : j % 3 = 0 ∨ j % 3 = 1 ∨ j % 3 = 2 := by omega
  rcases hk with hk | hk | hk
  · have e : j = 3 * (j / 3) := by omega
    rw [e, g1] at h
    left
    exact (Option.some.inj h).symm
  · have e : j = 3 * (j / 3) + 1 := by omega
    rw [e, g2] at h
    right; left
    exact (Option.some.inj h).symm
  · have e : j = 3 * (j / 3) + 2 := by omega
    rw [e, g3] at h
    right; right
    exact (Option.some.inj h).symm

theorem Inv.tri_bounds {calls : List (Call P)} {s : STLMeshHelper P} (h : Inv calls s)
    (t : Triangle) (ht : t ∈ s.tris_) :
    (0 ≤ t.v1 ∧ t.v1 < (s.verts_.length : Nat)) ∧
    (0 ≤ t.v2 ∧ t.v2 < (s.verts_.length : Nat)) ∧
    (0 ≤ t.v3 ∧ t.v3 < (s.verts_.length : Nat)) := by
  obtain ⟨call, hc, rfl⟩ := h.tri_origin t ht
  exact index_triple_bounds (h.points_in_of_accepted call hc)

/-- C19: indices are always in bounds.  In every builder state reached from a fresh builder
by `add_triangle` calls, every index `v1`, `v2`, `v3` of the triangle list satisfies
`0 ≤ v < size of the vertex table`; hence every entry of the corner-vertex array written by
`to_mesh` is a valid index into the vertex-position array, and every write
`corner_verts[3*i + k]` with `i < triangle count` and `k < 3` falls inside the array, whose
length is `3 * triangle count`. -/
theorem C19_in_bounds (tris_num : Int) (use_custom_normals : Bool) (calls : List (Call P))
    (alloc : Int → List Int) :
    (∀ t ∈ (STLMeshHelper.build P tris_num use_custom_normals calls).tris_,
      (0 ≤ t.v1 ∧ t.v1 < ((STLMeshHelper.build P tris_num use_custom_normals calls).verts_.length : Nat)) ∧
      (0 ≤ t.v2 ∧ t.v2 < ((STLMeshHelper.build P tris_num use_custom_normals calls).verts_.length : Nat)) ∧
      (0 ≤ t.v3 ∧ t.v3 < ((STLMeshHelper.build P tris_num use_custom_normals calls).verts_.length : Nat))) ∧
    (∀ (j : Nat) (v : Int),
      ((STLMeshHelper.build P tris_num use_custom_normals calls).to_mesh alloc).2.corner_verts[j]?
        = some v →
      0 ≤ v ∧
      v < ((STLMeshHelper.build P tris_num use_custom_normals calls).to_mesh alloc).2.totvert ∧
      v.toNat <
        ((STLMeshHelper.build P tris_num use_custom_normals calls).to_mesh alloc).2.vert_positions.length) ∧
    (∀ i k : Nat, i < (STLMeshHelper.build P tris_num use_custom_normals calls).tris_.length →
      k < 3 →
      3 * i + k < (List.replicate
        (((STLMeshHelper.build P tris_num use_custom_normals calls).to_mesh alloc).2.totloop.toNat)
        (0 : Int)).length ∧
      3 * i + k <
        ((STLMeshHelper.build P tris_num use_custom_normals calls).to_mesh alloc).2.corner_verts.length) := by
  have hinv := inv_run tris_num use_custom_normals calls
  unfold STLMeshHelper.build
  refine ⟨fun t ht => hinv.tri_bounds t ht, ?_, ?_⟩
  · intro j v hv
    obtain ⟨t, ht, hvt⟩ := corner_entry_origin alloc _ j v hv
    obtain ⟨b1, b2, b3⟩ := hinv.tri_bounds t ht
    rw [to_mesh_totvert, to_mesh_vert_positions]
    rcases hvt with rfl | rfl | rfl <;> omega
  · intro i k hi hk
    rw [to_mesh_corner_verts_length, to_mesh_totloop, List.length_replicate]
    omega

/-- Witness for C19: in the example run the triangle `(1, 0, 2)` has its indices below the
3 vertices, corner slot 3 holds the valid vertex index 1, and the write to slot `3*1+2`
falls inside the corner array. -/
theorem C19_in_bounds_witness :
    ((0 : Int) ≤ (⟨1, 0, 2⟩ : Triangle).v1 ∧
      (⟨1, 0, 2⟩ : Triangle).v1
        < ((STLMeshHelper.build float3 0 false example_calls).verts_.length : Nat)) ∧
    ((0 : Int) ≤ 1 ∧
      (1 : Int) < ((STLMeshHelper.build float3 0 false example_calls).to_mesh example_alloc).2.totvert ∧
      (1 : Int).toNat <
        ((STLMeshHelper.build float3 0 false example_calls).to_mesh example_alloc).2.vert_positions.length) ∧
    3 * 1 + 2 <
      ((STLMeshHelper.build float3 0 false example_calls).to_mesh example_alloc).2.corner_verts.length :=
  ⟨((C19_in_bounds 0 false example_calls example_alloc).1 ⟨1, 0, 2⟩ (by decide)).1,
   (C19_in_bounds 0 false example_calls example_alloc).2.1 3 1 (by decide),
   ((C19_in_bounds 0 false example_calls example_alloc).2.2 1 2 (by decide) (by decide)).2⟩

end blender.io.stl
